import Mathlib

/-!
The reconciliation of the primary store with the derived document store (`fixr`).

A shallow embedding of `cmd/fixr/main.go`.  Stateful code is written in
state-passing style over a `World` that holds the primary table, the two
derived collections, the number of clock readings taken so far and the log
of store calls issued so far.  The environment `Env` holds what the code
cannot decide: the two configuration strings, the `-b` flag, the clock
and which store calls fail.

Two more packages follow the definitions of `fixr`: `GetMemberActivity` of
`cmd/webd/graphql/data` (namespace `Data`) and the reports of
`internal/platform/excel` (namespace `Excel`).  The theorems come after all
definitions, package by package.
-/

namespace Fixr

/-! ## Values -/

/-- A `time.Time`; `0` stands for the zero value `time.Time{}`. -/
abbrev Time := Nat

/-- The zero value `time.Time{}` (called `nilTime` in `checkSync`). -/
def nilTime : Time := 0

/-- Go errors: a driver error or an `errors.Wrap` around a cause. -/
inductive Err where
  | base (msg : String)
  | wrapped (msg : String) (cause : Err)
  deriving DecidableEq, Repr

/-- `errors.Wrap(err, msg)`: nil stays nil, any other error is wrapped. -/
def Wrap (err : Option Err) (msg : String) : Option Err :=
  match err with
  | none => none
  | some e => some (Err.wrapped msg e)

/-- The `link` struct of `main.go`. -/
structure link where
  id : Int
  title : String
  shortPath : String
  shortURL : String
  longURL : String
  deriving DecidableEq, Repr

/-- Modelled from the spec: the type `resources.Link` (a document of the Links
collection) is declared outside the sources at hand; its fields are those of the
DerivedLinkDocument of the data model, under the names `main.go` uses. -/
structure Link where
  ShortUrl : String
  Title : String
  LongUrl : String
  CreatedAt : Time
  UpdatedAt : Time
  Active : Bool
  deriving DecidableEq, Repr

/-- Modelled from the spec: a document of the Resources collection, the
DerivedResourceDocument of the data model (`id`, `active`). -/
structure ResourceDoc where
  id : Int
  active : Bool
  deriving DecidableEq, Repr

/-- A row of the primary table `ol_resource`, with the columns `main.go` reads or
writes; `none` is SQL NULL. -/
structure Row where
  id : Int
  name : Option String
  short_url : Option String
  resource_url : Option String
  active : Bool
  primary : Bool
  updated_at : Time
  deriving DecidableEq, Repr

/-! ## Decimal rendering (`strconv.Itoa`, and `%v` of an `int`) -/

/-- The character of one decimal digit. -/
def digitChar (d : Nat) : Char :=
  match d with
  | 0 => '0'
  | 1 => '1'
  | 2 => '2'
  | 3 => '3'
  | 4 => '4'
  | 5 => '5'
  | 6 => '6'
  | 7 => '7'
  | 8 => '8'
  | _ => '9'

/-- Decimal digits of `n`, least significant first, no padding. -/
def digitsRev : Nat → Nat → List Nat
  | 0, _ => []
  | fuel + 1, n => if n < 10 then [n] else (n % 10) :: digitsRev fuel (n / 10)

/-- Decimal rendering of a natural number, most significant digit first. -/
def natChars (n : Nat) : List Char :=
  ((digitsRev (n + 1) n).map digitChar).reverse

/-- The number a list of decimal digits stands for, least significant first. -/
def decValue : List Nat → Nat
  | [] => 0
  | d :: ds => d + 10 * decValue ds

/-- `strconv.Itoa`: the decimal rendering of an integer, `-` in front of a
negative one. -/
def Itoa (i : Int) : String :=
  match i with
  | Int.ofNat n => String.mk (natChars n)
  | Int.negSucc n => String.mk ('-' :: natChars (n + 1))

/-! ## Environment, world and store calls -/

/-- What the run is given from outside. -/
structure Env where
  /-- MAPPCPD_SHORT_LINK_URL -/
  baseURL : String
  /-- MAPPCPD_SHORT_LINK_PREFIX -/
  pfx : String
  /-- the `-b` flag -/
  backdays : Int
  /-- the clock: the reading taken when `n` readings were taken before -/
  clock : Nat → Time
  /-- whether the store call issued when `n` calls were issued before fails -/
  failAt : Nat → Bool
  /-- what `LIKE 'http%'` says of a resource URL (the collation of the table decides
  whether case counts) -/
  likeHttp : String → Bool

/-- The calls to the two stores. -/
inductive Op where
  | connect
  | queryCandidates (backdays : Int)
  | queryIDs (active : Bool)
  | exec (id : Int) (shortURL : String)
  | linksCol
  | resourcesCol
  | findOne (shortUrl : String)
  | upsert (shortUrl : String) (doc : Link)
  | updateAllResources (ids : List Int) (active : Bool)
  | updateAllLinks (rids : List String) (active : Bool)
  deriving DecidableEq, Repr

/-- The state of the two stores, the clock readings taken and the calls issued. -/
structure World where
  primary : List Row
  links : List Link
  resources : List ResourceDoc
  tick : Nat
  log : List Op
  deriving DecidableEq, Repr

/-- `time.Now()` (and NOW() of the primary store): one reading of the clock. -/
def Now (env : Env) (w : World) : Time × World :=
  (env.clock w.tick, { w with tick := w.tick + 1 })

/-- Issue a store call: it is logged, and the environment says whether it fails. -/
def call (env : Env) (op : Op) (w : World) : Bool × World :=
  (env.failAt w.log.length, { w with log := w.log ++ [op] })

/-- The error a failed store call returns. -/
def storeErr : Err := Err.base "store error"

/-- `datastore.MongoDB.LinksCol()`. -/
def LinksCol (env : Env) (w : World) : Option Err × World :=
  match call env Op.linksCol w with
  | (true, w1) => (some storeErr, w1)
  | (false, w1) => (none, w1)

/-- `datastore.MongoDB.ResourcesCol()`. -/
def ResourcesCol (env : Env) (w : World) : Option Err × World :=
  match call env Op.resourcesCol w with
  | (true, w1) => (some storeErr, w1)
  | (false, w1) => (none, w1)

/-- Result of `c.Find(s).One(&l)`. -/
inductive FindResult where
  | found (doc : Link)
  | notFound
  | failed (err : Err)
  deriving DecidableEq, Repr

/-- `c.Find(bson.M{"shortUrl": shortPath}).One(&l)` on the Links collection: the
first document with that key, `mgo.ErrNotFound` when there is none. -/
def FindOne (env : Env) (shortPath : String) (w : World) : FindResult × World :=
  match call env (Op.findOne shortPath) w with
  | (true, w1) => (FindResult.failed storeErr, w1)
  | (false, w1) =>
    match w1.links.find? (fun d => decide (d.ShortUrl = shortPath)) with
    | some d => (FindResult.found d, w1)
    | none => (FindResult.notFound, w1)

/-- The Links collection after an upsert of `$set: ld` with selector `shortUrl`:
the first document with that key takes the fields of `ld`; with no such document
one is inserted. -/
def upsertDoc (shortPath : String) (ld : Link) : List Link → List Link
  | [] => [ld]
  | d :: ds => if d.ShortUrl = shortPath then ld :: ds else d :: upsertDoc shortPath ld ds

/-- `c.Upsert(s, u)` on the Links collection. -/
def Upsert (env : Env) (shortPath : String) (ld : Link) (w : World) : Option Err × World :=
  match call env (Op.upsert shortPath ld) w with
  | (true, w1) => (some storeErr, w1)
  | (false, w1) => (none, { w1 with links := upsertDoc shortPath ld w1.links })

/-! ## The per-record pass: `getLinkDoc`, `sync`, `checkSync` -/

/-- `var l resources.Link; l.ShortUrl = shortPath`: the zero value of a Links
document with only its key set. -/
def keyOnly (shortPath : String) : Link :=
  { ShortUrl := shortPath, Title := "", LongUrl := "", CreatedAt := nilTime,
    UpdatedAt := nilTime, Active := false }

/-- `getLinkDoc`: the document of the Links collection with key `shortPath`, or
the empty document that carries only the key when there is none. -/
def getLinkDoc (env : Env) (shortPath : String) (w : World) : Link × Option Err × World :=
  let l : Link := keyOnly shortPath
  match LinksCol env w with
  | (some e, w1) => (l, Wrap (some e) "error connecting to collection", w1)
  | (none, w1) =>
    match FindOne env shortPath w1 with
    | (FindResult.notFound, w2) => (l, none, w2)
    | (FindResult.failed e, w2) => (l, Wrap (some e) "mongo query failed", w2)
    | (FindResult.found d, w2) => (d, none, w2)

/-- `sync`: upsert `ld` into the Links collection under the key `shortPath`. -/
def sync (env : Env) (ld : Link) (shortPath : String) (w : World) : Option Err × World :=
  match LinksCol env w with
  | (some e, w1) => (Wrap (some e) "error connecting to collection", w1)
  | (none, w1) =>
    match Upsert env shortPath ld w1 with
    | (some e, w2) => (Wrap (some e) "upsert failed", w2)
    | (none, w2) => (none, w2)

/-- The state of the body of `checkSync` between its four checks. -/
structure SyncState where
  ld : Link
  doSync : Bool
  w : World

/-- `if ld.CreatedAt == nilTime { ld.CreatedAt = time.Now(); doSync = true }`. -/
def checkCreatedAt (env : Env) (s : SyncState) : SyncState :=
  if s.ld.CreatedAt = nilTime then
    { ld := { s.ld with CreatedAt := (Now env s.w).1 }, doSync := true, w := (Now env s.w).2 }
  else s

/-- `if ld.UpdatedAt == nilTime { ld.UpdatedAt = time.Now(); doSync = true }`. -/
def checkUpdatedAt (env : Env) (s : SyncState) : SyncState :=
  if s.ld.UpdatedAt = nilTime then
    { ld := { s.ld with UpdatedAt := (Now env s.w).1 }, doSync := true, w := (Now env s.w).2 }
  else s

/-- `if ld.Title != l.title { ld.Title = l.title; doSync = true }`. -/
def checkTitle (l : link) (s : SyncState) : SyncState :=
  if s.ld.Title ≠ l.title then
    { s with ld := { s.ld with Title := l.title }, doSync := true }
  else s

/-- `if ld.LongUrl != l.longURL { ld.LongUrl = l.longURL; doSync = true }`. -/
def checkLongUrl (l : link) (s : SyncState) : SyncState :=
  if s.ld.LongUrl ≠ l.longURL then
    { s with ld := { s.ld with LongUrl := l.longURL }, doSync := true }
  else s

/-- The four checks of `checkSync`, in the order of the source, from the fetched
document. -/
def checks (env : Env) (l : link) (ld : Link) (w : World) : SyncState :=
  checkLongUrl l (checkTitle l (checkUpdatedAt env (checkCreatedAt env
    { ld := ld, doSync := false, w := w })))

/-- `checkSync`: fetch the Links document of `l`, compare, and upsert when one
of the four checks trips. -/
def checkSync (env : Env) (l : link) (w : World) : Option Err × World :=
  match getLinkDoc env l.shortPath w with
  | (_, some e, w1) => (Wrap (some e) "mongo query failed", w1)
  | (ld, none, w1) =>
    let s := checks env l ld w1
    if s.doSync = true then
      match sync env s.ld l.shortPath s.w with
      | (err, w2) => (Wrap err "sync failed", w2)
    else (none, s.w)

/-! ## The short-link pass: `setShortURL`, `checkShortLinks` -/

/-- `fmt.Sprintf("%v%v", s, i)` for a string and an `int`. -/
def sprintfVV (s : String) (i : Int) : String := s ++ Itoa i

/-- `fmt.Sprintf("%v/%v", a, b)` for two strings. -/
def sprintfVSlashV (a b : String) : String := a ++ "/" ++ b

/-- The primary table after `UPDATE ol_resource SET short_url = .., updated_at = NOW()
WHERE id = .. LIMIT 1`: the first row with that id is changed, no other. -/
def updateShortURL (id : Int) (shortURL : String) (now : Time) : List Row → List Row
  | [] => []
  | r :: rs =>
    if r.id = id then { r with short_url := some shortURL, updated_at := now } :: rs
    else r :: updateShortURL id shortURL now rs

/-- `setShortURL`: write the short URL to the primary record and set its
`updated_at` to NOW().  (The statement is built with `Sprintf` around the URL in
double quotes; the model is of a URL that holds no quote or backslash.) -/
def setShortURL (env : Env) (id : Int) (shortURL : String) (w : World) : Option Err × World :=
  match call env (Op.exec id shortURL) w with
  | (true, w1) => (Wrap (some storeErr) "sql updated failed", w1)
  | (false, w1) =>
    (Wrap none "sql updated failed",
      { (Now env w1).2 with
        primary := updateShortURL id shortURL (Now env w1).1 (Now env w1).2.primary })

/-- Seconds in the `DAY` of `INTERVAL n DAY`. -/
def secondsPerDay : Int := 86400

/-- `resource_url LIKE 'http%'`; NULL matches nothing. -/
def urlLikeHttp (env : Env) (url : Option String) : Bool :=
  match url with
  | none => false
  | some u => env.likeHttp u

/-- The WHERE clause of the query of `checkShortLinks`, at the reading `now` of NOW(). -/
def candidate (env : Env) (now : Time) (r : Row) : Bool :=
  r.active && r.primary && urlLikeHttp env r.resource_url &&
    decide ((now : Int) - env.backdays * secondsPerDay ≤ (r.updated_at : Int))

/-- `rows.Scan(&l.id, &l.title, &l.shortURL, &l.longURL)` of the columns
`id, name, COALESCE(short_url, ''), resource_url`: a NULL cannot be scanned into
a string. -/
def Scan (r : Row) : Option link :=
  match r.name, r.resource_url with
  | some t, some u =>
    some { id := r.id, title := t, shortPath := "", shortURL := r.short_url.getD "", longURL := u }
  | _, _ => none

/-- The error of a failed `rows.Scan`. -/
def scanErr : Err := Err.base "scan error"

/-- The body of the loop of `checkShortLinks` up to the call of `checkSync`: work
out the short path and the expected short URL, and set the short URL in the
primary record when it is not the expected one.  Returns the link that is then
handed to `checkSync`. -/
def correctShortURL (env : Env) (l : link) (w : World) : link × Option Err × World :=
  let l1 : link := { l with shortPath := sprintfVV env.pfx l.id }
  let expectedShortURL := sprintfVSlashV env.baseURL l1.shortPath
  if l1.shortURL ≠ expectedShortURL then
    let l2 : link := { l1 with shortURL := expectedShortURL }
    match setShortURL env l2.id l2.shortURL w with
    | (err, w1) => (l2, err, w1)
  else (l1, none, w)

/-- The loop `for rows.Next() { ... }` of `checkShortLinks` over the rows the query
returned. -/
def checkShortLinksLoop (env : Env) : List Row → World → Option Err × World
  | [], w => (none, w)
  | r :: rs, w =>
    match Scan r with
    | none => (some scanErr, w)
    | some l =>
      match correctShortURL env l w with
      | (_, some e, w1) => (some e, w1)
      | (l1, none, w1) =>
        match checkSync env l1 w1 with
        | (some e, w2) => (some e, w2)
        | (none, w2) => checkShortLinksLoop env rs w2

/-- `checkShortLinks`: query the candidate rows, then correct and sync each. -/
def checkShortLinks (env : Env) (w : World) : Option Err × World :=
  match call env (Op.queryCandidates env.backdays) w with
  | (true, w1) => (some storeErr, w1)
  | (false, w1) =>
    checkShortLinksLoop env ((Now env w1).2.primary.filter (candidate env (Now env w1).1))
      (Now env w1).2

/-! ## The active-flag pass -/

/-- The rows `SELECT id FROM ol_resource WHERE resource_url LIKE 'http%' AND active = ?`
returns, as their ids. -/
def idsWith (env : Env) (active : Bool) (rows : List Row) : List Int :=
  (rows.filter (fun r => urlLikeHttp env r.resource_url && (r.active == active))).map
    (fun r => r.id)

/-- `getResourceIDs`: the ids of the rows with an absolute URL and the given
`active` value. -/
def getResourceIDs (env : Env) (active : Bool) (w : World) : List Int × Option Err × World :=
  match call env (Op.queryIDs active) w with
  | (true, w1) => ([], some (Err.base "Error executing query - store error"), w1)
  | (false, w1) => (idsWith env active w1.primary, none, w1)

/-- One Resources document under `$set: {active}` with selector `id $in ids`. -/
def flagResource (ids : List Int) (active : Bool) (d : ResourceDoc) : ResourceDoc :=
  if d.id ∈ ids then { d with active := active } else d

/-- One Links document under `$set: {active}` with selector `shortUrl $in rids`. -/
def flagLink (rids : List String) (active : Bool) (d : Link) : Link :=
  if d.ShortUrl ∈ rids then { d with Active := active } else d

/-- The Resources collection after `$set: {active}` on every document with
`id $in ids`. -/
def setResourcesActive (ids : List Int) (active : Bool) (docs : List ResourceDoc) :
    List ResourceDoc :=
  docs.map (flagResource ids active)

/-- The Links collection after `$set: {active}` on every document with
`shortUrl $in rids`. -/
def setLinksActive (rids : List String) (active : Bool) (docs : List Link) : List Link :=
  docs.map (flagLink rids active)

/-- `c.UpdateAll(s, u)` on the Resources collection. -/
def UpdateAllResources (env : Env) (ids : List Int) (active : Bool) (w : World) :
    Option Err × World :=
  match call env (Op.updateAllResources ids active) w with
  | (true, w1) => (some storeErr, w1)
  | (false, w1) => (none, { w1 with resources := setResourcesActive ids active w1.resources })

/-- `c.UpdateAll(s, u)` on the Links collection. -/
def UpdateAllLinks (env : Env) (rids : List String) (active : Bool) (w : World) :
    Option Err × World :=
  match call env (Op.updateAllLinks rids active) w with
  | (true, w1) => (some storeErr, w1)
  | (false, w1) => (none, { w1 with links := setLinksActive rids active w1.links })

/-- `setResourcesActiveField`. -/
def setResourcesActiveField (env : Env) (ids : List Int) (active : Bool) (w : World) :
    Option Err × World :=
  if ids.length = 0 then (none, w)
  else
    match ResourcesCol env w with
    | (some e, w1) => (Wrap (some e) "error connecting to collection", w1)
    | (none, w1) =>
      match UpdateAllResources env ids active w1 with
      | (some e, w2) => (Wrap (some e) "Mongo query error", w2)
      | (none, w2) => (none, w2)

/-- The selector keys built in `setLinksActiveField`: the configured short-link
text in front of `strconv.Itoa` of each id. -/
def linkKeys (env : Env) (ids : List Int) : List String :=
  ids.map (fun v => env.pfx ++ Itoa v)

/-- `setLinksActiveField`. -/
def setLinksActiveField (env : Env) (ids : List Int) (active : Bool) (w : World) :
    Option Err × World :=
  if ids.length = 0 then (none, w)
  else
    match LinksCol env w with
    | (some e, w1) => (Wrap (some e) "error connecting to collection", w1)
    | (none, w1) =>
      match UpdateAllLinks env (linkKeys env ids) active w1 with
      | (some e, w2) => (Wrap (some e) "Mongo query error", w2)
      | (none, w2) => (none, w2)

/-- `syncActiveFlag`: inactive ids first, then active ids; each list goes to the
Resources collection and then to the Links collection. -/
def syncActiveFlag (env : Env) (w : World) : Option Err × World :=
  match getResourceIDs env false w with
  | (_, some e, w1) => (some e, w1)
  | (inactiveIDs, none, w1) =>
    match setResourcesActiveField env inactiveIDs false w1 with
    | (some e, w2) => (some e, w2)
    | (none, w2) =>
      match setLinksActiveField env inactiveIDs false w2 with
      | (some e, w3) => (some e, w3)
      | (none, w3) =>
        match getResourceIDs env true w3 with
        | (_, some e, w4) => (some e, w4)
        | (activeIDs, none, w4) =>
          match setResourcesActiveField env activeIDs true w4 with
          | (some e, w5) => (some e, w5)
          | (none, w5) => setLinksActiveField env activeIDs true w5

/-! ## The run: `verifyTasks`, `main` -/

/-- `validTasks`. -/
def validTasks : List String := ["fixResources"]

/-- The inner loop of `verifyTasks`:
`f := false; for _, vt := range validTasks { if t == vt { f = true } }`. -/
def isValidTask (t : String) : Bool :=
  validTasks.foldl (fun f vt => if t = vt then true else f) false

/-- `fmt.Errorf("Invalid task: '%s'", t)`. -/
def invalidTask (t : String) : Err := Err.base ("Invalid task: '" ++ t ++ "'")

/-- `verifyTasks`: the error of the first task that is not a valid one, nil when
there is none. -/
def verifyTasks : List String → Option Err
  | [] => none
  | t :: ts => if isValidTask t = false then some (invalidTask t) else verifyTasks ts

/-- `strings.Replace(s, " ", "", -1)`: `s` without its spaces. -/
def removeSpaces (s : String) : String :=
  String.mk (s.data.filter (fun c => decide (c ≠ ' ')))

/-- The pieces of a text between its commas; a text without comma is one piece. -/
def splitComma : List Char → List (List Char)
  | [] => [[]]
  | c :: cs =>
    if c = ',' then [] :: splitComma cs
    else
      match splitComma cs with
      | piece :: rest => (c :: piece) :: rest
      | [] => [[c]]

/-- `strings.Split(s, ",")`. -/
def Split (s : String) : List String :=
  (splitComma s.data).map String.mk

/-- Modelled from the spec: `datastore.Connect()` is declared outside the sources at
hand and returns nothing; a store that cannot be reached is fatal and ends the
run with status 1 (spec, error handling: ConnectivityError). -/
def Connect (env : Env) (w : World) : Bool × World :=
  call env Op.connect w

/-- The loop `for _, v := range tasks` of `main`, with the exit status it ends in:
`os.Exit(1)` at the first stage that returns an error, 0 when the loop runs out. -/
def runTasks (env : Env) : List String → World → Nat × World
  | [], w => (0, w)
  | v :: vs, w =>
    if v = "fixResources" then
      match checkShortLinks env w with
      | (some _, w1) => (1, w1)
      | (none, w1) =>
        match syncActiveFlag env w1 with
        | (some _, w2) => (1, w2)
        | (none, w2) => runTasks env vs w2
    else runTasks env vs w

/-- `main`, from the parsed flags (`-b` is `env.backdays`, `-t` is `tasksFlag`) to
the exit status and the world it leaves. -/
def main (env : Env) (tasksFlag : String) (w : World) : Nat × World :=
  if tasksFlag = "" then (0, w)
  else
    match verifyTasks (Split (removeSpaces tasksFlag)) with
    | some _ => (1, w)
    | none =>
      match Connect env w with
      | (true, w1) => (1, w1)
      | (false, w1) => runTasks env (Split (removeSpaces tasksFlag)) w1

/-! ## What a run leaves in the log -/

/-- The store calls that write: the update of the primary table, the upsert and
the two bulk updates. -/
def isWrite : Op → Bool
  | Op.exec _ _ => true
  | Op.upsert _ _ => true
  | Op.updateAllResources _ _ => true
  | Op.updateAllLinks _ _ => true
  | _ => false

/-- The writes among the calls issued. -/
def writes (log : List Op) : List Op := log.filter isWrite

/-- The four comparisons of `checkSync`, on the fetched document. -/
def trips (l : link) (ld : Link) : Prop :=
  ld.CreatedAt = nilTime ∨ ld.UpdatedAt = nilTime ∨ ld.Title ≠ l.title ∨ ld.LongUrl ≠ l.longURL

instance (l : link) (ld : Link) : Decidable (trips l ld) := by
  unfold trips; infer_instance

/-- The Links document of `l` is stored and none of the four checks trips on it. -/
def Synced (l : link) (w : World) : Prop :=
  ∃ d, w.links.find? (fun d => decide (d.ShortUrl = l.shortPath)) = some d ∧ ¬ trips l d

/-! ## Concrete inputs -/

/-- A configuration with a reachable store and a clock that starts at 1000. -/
def exEnv : Env :=
  { baseURL := "https://s.example.com", pfx := "r", backdays := 1,
    clock := fun n => 1000 + n, failAt := fun _ => false,
    likeHttp := fun u => "http".toList.isPrefixOf u.toList }

/-- The link of resource 42. -/
def exLink : link :=
  { id := 42, title := "Title", shortPath := "r42",
    shortURL := "https://s.example.com/r42", longURL := "http://example.com/a" }

/-- Nothing stored, nothing issued. -/
def emptyWorld : World :=
  { primary := [], links := [], resources := [], tick := 0, log := [] }

/-- A Links document of resource 42 with both dates set and an older title. -/
def exStored : Link :=
  { ShortUrl := "r42", Title := "Old title", LongUrl := "http://example.com/a",
    CreatedAt := 5, UpdatedAt := 5, Active := true }

/-- A world whose Links collection holds `exStored`. -/
def exWorld : World := { emptyWorld with links := [exStored] }

/-- The primary record of resource 42, with no short URL yet. -/
def exRow : Row :=
  { id := 42, name := some "Title", short_url := none,
    resource_url := some "http://example.com/a", active := true, primary := true,
    updated_at := 900 }

/-- What `rows.Scan` reads from `exRow`. -/
def exScanned : link :=
  { id := 42, title := "Title", shortPath := "", shortURL := "",
    longURL := "http://example.com/a" }

/-- A world whose primary table holds `exRow`. -/
def exPrimaryWorld : World := { emptyWorld with primary := [exRow] }

/-- The configuration of `exEnv` with `-b 0`. -/
def zeroDaysEnv : Env := { exEnv with backdays := 0 }

/-- A primary row with the given id and active value. -/
def flagRow (id : Int) (active : Bool) : Row :=
  { id := id, name := some "n", short_url := none, resource_url := some "http://example.com",
    active := active, primary := true, updated_at := 900 }

/-- Primary ids 1, 2, 3 active and 4, 5 inactive; every derived document holds the
opposite flag, and documents 6 and `r6` have no primary row. -/
def flagWorld : World :=
  { primary := [flagRow 1 true, flagRow 2 true, flagRow 3 true, flagRow 4 false,
      flagRow 5 false],
    links := [{ keyOnly "r1" with Active := false }, { keyOnly "r2" with Active := false },
      { keyOnly "r3" with Active := false }, { keyOnly "r4" with Active := true },
      { keyOnly "r5" with Active := true }, { keyOnly "r6" with Active := true }],
    resources := [⟨1, false⟩, ⟨2, false⟩, ⟨3, false⟩, ⟨4, true⟩, ⟨5, true⟩, ⟨6, true⟩],
    tick := 0, log := [] }

end Fixr

/-! ## Package `data` of `webd`: `GetMemberActivity` -/

namespace Data

/-- A `float64`, as its 64 bits; the zero value is `0`. -/
abbrev Float64 := Nat

/-- An `ID` with its `Name`: the `Category` and the `Activity` of a fetched
member activity. -/
structure NamedID where
  ID : Int
  Name : String
  deriving DecidableEq, Repr

/-- The fields of `members.MemberActivity` that `GetMemberActivity` reads (the type
is declared in package `members`). -/
structure FetchedActivity where
  ID : Int
  MemberID : Int
  DateISO : Fixr.Time
  Credit : Float64
  Category : NamedID
  Activity : NamedID
  Description : String
  deriving DecidableEq, Repr

/-- The struct `MemberActivity` of `memberActivity.go` (`Type_` is its field `Type`). -/
structure MemberActivity where
  ID : Int
  Date : Fixr.Time
  Credit : Float64
  CategoryID : Int
  Category : String
  TypeID : Int
  Type_ : String
  Description : String
  deriving DecidableEq, Repr

/-- `var a MemberActivity`: the zero value. -/
def zeroActivity : MemberActivity :=
  { ID := 0, Date := Fixr.nilTime, Credit := 0, CategoryID := 0, Category := "", TypeID := 0,
    Type_ := "", Description := "" }

/-- `GetMemberActivity`: the activity with id `activityID` when it is owned by
`memberID`.  `MemberActivityByID` is `members.MemberActivityByID`, which is
declared in package `members`: it returns the fetched value and an error. -/
def GetMemberActivity (MemberActivityByID : Int → FetchedActivity × Option String)
    (memberID activityID : Int) : MemberActivity × Option String :=
  let a : MemberActivity := zeroActivity
  match MemberActivityByID activityID with
  | (_, some err) => (a, some err)
  | (ma, none) =>
    if ma.MemberID ≠ memberID then
      (a, some ("MemberActivity with id " ++ Fixr.Itoa activityID ++
        " does not belong to member with id " ++ Fixr.Itoa memberID))
    else
      ({ a with ID := ma.ID, Date := ma.DateISO, Credit := ma.Credit,
                CategoryID := ma.Category.ID, Category := ma.Category.Name,
                TypeID := ma.Activity.ID, Type_ := ma.Activity.Name,
                Description := ma.Description }, none)

/-- An activity of member 7. -/
def exFetched : FetchedActivity :=
  { ID := 100, MemberID := 7, DateISO := 20, Credit := 3,
    Category := { ID := 1, Name := "Category" }, Activity := { ID := 2, Name := "Reading" },
    Description := "secret notes" }

/-- A lookup that knows activity 100 only. -/
def exLookup (activityID : Int) : FetchedActivity × Option String :=
  if activityID = 100 then (exFetched, none)
  else ({ exFetched with ID := 0, MemberID := 0 }, some "sql: no rows in result set")

end Data

/-! ## Package `excel`: `rowKeys`, `PaymentReport`, `MemberReport` -/

namespace Excel

/-- `rowKeys`: the cell references of a row, one for each column key. -/
def rowKeys (columnKeys : List String) (rowNumber : Int) : List String :=
  let rowNum := Fixr.Itoa rowNumber
  columnKeys.foldl (fun refs c => refs ++ [c ++ rowNum]) []

/-- A cell value handed to `SetCellValue`. -/
inductive Value where
  | int (i : Int)
  | str (s : String)
  | float (bits : Data.Float64)
  deriving DecidableEq, Repr

/-- An allocation of a payment, with the field `PaymentReport` reads. -/
structure Allocation where
  InvoiceID : Int
  deriving DecidableEq, Repr

/-- The fields of `payment.Payment` that `PaymentReport` reads (the type is
declared in package `payment`). -/
structure Payment where
  ID : Int
  Date : Fixr.Time
  MemberID : Int
  Member : String
  Type_ : String
  Amount : Data.Float64
  Comment : String
  DataField1 : String
  DataField2 : String
  DataField3 : String
  DataField4 : String
  Allocations : List Allocation
  deriving DecidableEq, Repr

/-- A Go `map[string]interface{}`, as its entries. -/
abbrev RowMap := List (String × Value)

/-- The map assignment `row[k] = v`: the entry of `k` is replaced, or added. -/
def mapSet (row : RowMap) (k : String) (v : Value) : RowMap :=
  match row with
  | [] => [(k, v)]
  | (k0, v0) :: rest => if k0 = k then (k, v) :: rest else (k0, v0) :: mapSet rest k v

/-- The sheet `Sheet1` of an `excelize.File`, as the `SetCellValue` calls made on it,
in order. -/
abbrev File := List (String × Value)

/-- `file.SetCellValue("Sheet1", ref, v)`. -/
def SetCellValue (file : File) (ref : String) (v : Value) : File :=
  file ++ [(ref, v)]

/-- `columns` of `PaymentReport`. -/
def columns : List String := ["A", "B", "C", "D", "E", "F", "G", "H", "I", "J", "K", "L"]

/-- `titles` of `PaymentReport`. -/
def titles : List (String × String) :=
  [("A1", "Payment ID"), ("B1", "Payment Date"), ("C1", "Member ID"), ("D1", "Member"),
   ("E1", "Payment Type"), ("F1", "Amount"), ("G1", "Comment"), ("H1", "Field1"),
   ("I1", "Field2"), ("J1", "Field3"), ("K1", "Field4"), ("L1", "Invoice IDs")]

/-- The invoice ids of a payment: `strconv.Itoa` of each, joined with `", "`. -/
def invoiceIDs (p : Payment) : String :=
  ", ".intercalate
    (p.Allocations.foldl (fun acc i => acc ++ [Fixr.Itoa i.InvoiceID]) [])

/-- The map `row` of one payment in the loop of `PaymentReport`; `none` when an
index `keys[i]` is out of range (a panic).  `Format` is `Date.Format("2006-01-02")`. -/
def paymentRow (Format : Fixr.Time → String) (p : Payment) (keys : List String) :
    Option RowMap := do
  let row : RowMap := []
  let row := mapSet row (← keys[0]?) (Value.int p.ID)
  let row := mapSet row (← keys[1]?) (Value.str (Format p.Date))
  let row := mapSet row (← keys[2]?) (Value.int p.MemberID)
  let row := mapSet row (← keys[3]?) (Value.str p.Member)
  let row := mapSet row (← keys[4]?) (Value.str p.Type_)
  let row := mapSet row (← keys[5]?) (Value.float p.Amount)
  let row := mapSet row (← keys[6]?) (Value.str p.Comment)
  let row := mapSet row (← keys[7]?) (Value.str p.DataField1)
  let row := mapSet row (← keys[8]?) (Value.str p.DataField2)
  let row := mapSet row (← keys[9]?) (Value.str p.DataField3)
  let row := mapSet row (← keys[10]?) (Value.str p.DataField4)
  let row := mapSet row (← keys[11]?) (Value.str (invoiceIDs p))
  pure row

/-- The loop `for _, p := range payments` of `PaymentReport`, from the row number
and the file reached so far. -/
def paymentLoop (Format : Fixr.Time → String) : List Payment → Int → File → Option File
  | [], _, file => some file
  | p :: ps, rowNum, file =>
    match paymentRow Format p (rowKeys columns (rowNum + 1)) with
    | none => none
    | some row =>
      paymentLoop Format ps (rowNum + 1)
        (row.foldl (fun f entry => SetCellValue f entry.1 entry.2) file)

/-- `PaymentReport`: the title row, then one row for each payment. -/
def PaymentReport (Format : Fixr.Time → String) (payments : List Payment) : Option File :=
  paymentLoop Format payments (0 + 1)
    (titles.foldl (fun f entry => SetCellValue f entry.1 (Value.str entry.2)) [])

/-- The twelve cells of a payment in row `n`, column by column. -/
def paymentCells (Format : Fixr.Time → String) (p : Payment) (n : Int) : File :=
  [("A" ++ Fixr.Itoa n, Value.int p.ID), ("B" ++ Fixr.Itoa n, Value.str (Format p.Date)),
   ("C" ++ Fixr.Itoa n, Value.int p.MemberID), ("D" ++ Fixr.Itoa n, Value.str p.Member),
   ("E" ++ Fixr.Itoa n, Value.str p.Type_), ("F" ++ Fixr.Itoa n, Value.float p.Amount),
   ("G" ++ Fixr.Itoa n, Value.str p.Comment), ("H" ++ Fixr.Itoa n, Value.str p.DataField1),
   ("I" ++ Fixr.Itoa n, Value.str p.DataField2), ("J" ++ Fixr.Itoa n, Value.str p.DataField3),
   ("K" ++ Fixr.Itoa n, Value.str p.DataField4),
   ("L" ++ Fixr.Itoa n, Value.str (invoiceIDs p))]

/-- A membership of a member, with the fields `MemberReport` reads. -/
structure Membership where
  Title : String
  Status : String
  deriving DecidableEq, Repr

/-- A speciality of a member, with the field `MemberReport` reads. -/
structure Speciality where
  Name : String
  deriving DecidableEq, Repr

/-- A contact location, with the fields `MemberReport` reads. -/
structure Location where
  Address : List String
  City : String
  State : String
  Postcode : String
  Country : String
  Phone : String
  Fax : String
  Email : String
  URL : String
  deriving DecidableEq, Repr

/-- A position of a member, with the field `MemberReport` reads. -/
structure Position where
  OrgName : String
  deriving DecidableEq, Repr

/-- The contact of a member, with the fields `MemberReport` reads. -/
structure Contact where
  EmailPrimary : String
  EmailSecondary : String
  Mobile : String
  deriving DecidableEq, Repr

/-- The fields of `member.Member` that `MemberReport` reads (the type is declared
in package `member`). -/
structure Member where
  ID : Int
  Title : String
  FirstName : String
  MiddleNames : List String
  LastName : String
  PostNominal : String
  Gender : String
  DateOfBirth : String
  Contact : Contact
  DateOfEntry : String
  Memberships : List Membership
  Country : String
  Tags : List String
  JournalNumber : String
  BpayNumber : String
  Specialities : List Speciality
  deriving DecidableEq, Repr

/-- The two methods of `member.Member` that `MemberReport` calls (declared in
package `member`); the error each returns besides is dropped by the caller. -/
structure MemberMethods where
  ContactLocationByDesc : Member → String → Location
  PositionByName : Member → String → Position

/-- A cell of a data row: its value, and the number of the `AddCell` statement of
the loop body that wrote it, counted from 0 in the order of the source (38
statements, as many as column titles). -/
structure Cell where
  stmt : Nat
  Value : String
  deriving DecidableEq, Repr

/-- `row.AddCell().Value = v`, written by statement `stmt`. -/
def AddCell (row : List Cell) (stmt : Nat) (v : String) : List Cell :=
  row ++ [{ stmt := stmt, Value := v }]

/-- `columns` of `MemberReport`: the titles of the header row. -/
def memberColumns : List String :=
  ["Member ID", "Prefix", "First Name", "Middle Name(s)", "Last Name", "Suffix", "Gender",
   "Date of Birth", "Email (primary)", "Email (secondary)", "Mobile", "Date of Entry",
   "Membership Title", "Membership Status", "Membership Country", "Tags", "Journal No.",
   "BPAY No.", "Mail Address", "Mail Locality", "Mail State", "Mail Postcode", "Mail Country",
   "Directory Address", "Directory Locality", "Directory State", "Directory Postcode",
   "Directory Country", "Directory Phone", "Directory Fax", "Directory Email", "Directory Web",
   "First Council", "Second Council", "Third Council", "First Speciality",
   "Second Speciality", "Third Speciality"]

/-- The header row: one cell for each column title. -/
def headerRow : List String :=
  memberColumns.foldl (fun row c => row ++ [c]) []

/-- The body of the loop `for _, m := range members` of `MemberReport`: the cells
of the row of one member. -/
def memberRow (mm : MemberMethods) (m : Member) : List Cell :=
  let row : List Cell := []
  let row := AddCell row 0 (Fixr.Itoa m.ID)
  let row := AddCell row 1 m.Title
  let row := AddCell row 2 m.FirstName
  let row := AddCell row 3 (" ".intercalate m.MiddleNames)
  let row := AddCell row 4 m.LastName
  let row := AddCell row 5 m.PostNominal
  let row := AddCell row 6 m.Gender
  let row := AddCell row 7 m.DateOfBirth
  let row := AddCell row 8 m.Contact.EmailPrimary
  let row := AddCell row 9 m.Contact.EmailSecondary
  let row := AddCell row 10 m.Contact.Mobile
  let row := AddCell row 11 m.DateOfEntry
  let row :=
    match m.Memberships[0]? with
    | some first => AddCell (AddCell row 12 first.Title) 13 first.Status
    | none => row
  let row := AddCell row 14 m.Country
  let row := if 0 < m.Tags.length then AddCell row 15 (", ".intercalate m.Tags) else row
  let row := AddCell row 16 m.JournalNumber
  let row := AddCell row 17 m.BpayNumber
  let mailLocation := mm.ContactLocationByDesc m "mail"
  let row := AddCell row 18 (" ".intercalate mailLocation.Address)
  let row := AddCell row 19 mailLocation.City
  let row := AddCell row 20 mailLocation.State
  let row := AddCell row 21 mailLocation.Postcode
  let row := AddCell row 22 mailLocation.Country
  let directoryLocation := mm.ContactLocationByDesc m "directory"
  let row := AddCell row 23 (" ".intercalate directoryLocation.Address)
  let row := AddCell row 24 directoryLocation.City
  let row := AddCell row 25 directoryLocation.State
  let row := AddCell row 26 directoryLocation.Postcode
  let row := AddCell row 27 directoryLocation.Country
  let row := AddCell row 28 directoryLocation.Phone
  let row := AddCell row 29 directoryLocation.Fax
  let row := AddCell row 30 directoryLocation.Email
  let row := AddCell row 31 directoryLocation.URL
  let row := AddCell row 32 (mm.PositionByName m "First Council Affiliation").OrgName
  let row := AddCell row 33 (mm.PositionByName m "Second Council Affiliation").OrgName
  let row := AddCell row 34 (mm.PositionByName m "Third Council Affiliation").OrgName
  let row :=
    match m.Specialities[0]? with
    | some s => AddCell row 35 s.Name
    | none => row
  let row :=
    match m.Specialities[1]? with
    | some s => AddCell row 36 s.Name
    | none => row
  let row :=
    match m.Specialities[2]? with
    | some s => AddCell row 37 s.Name
    | none => row
  row

/-- The sheet of a member report: the header row and the data rows. -/
structure Sheet where
  header : List String
  rows : List (List Cell)

/-- `MemberReport`: the header row and one row for each member; `addSheetErr` is the
error of `file.AddSheet("Sheet1")`, nil when the sheet is added. -/
def MemberReport (mm : MemberMethods) (addSheetErr : Option String) (members : List Member) :
    Except String Sheet :=
  match addSheetErr with
  | some err => Except.error ("file.AddSheet() err = " ++ err)
  | none =>
    Except.ok
      { header := headerRow,
        rows := members.foldl (fun rows m => rows ++ [memberRow mm m]) [] }

/-- The statements that wrote the cells of a row, cell by cell. -/
def stmts (row : List Cell) : List Nat := row.map (fun c => c.stmt)

/-- Every cell of the row stands at the index of the statement that wrote it, that
is under the column title of that statement. -/
def Aligned (row : List Cell) : Prop := stmts row = List.range row.length

/-- Some cell of the row stands at an index before the one of its statement, that
is under an earlier column title. -/
def Shifted (row : List Cell) : Prop :=
  ∃ (i k : Nat), (stmts row)[i]? = some k ∧ i < k

/-- Methods that find no location and no position. -/
def exMethods : MemberMethods :=
  { ContactLocationByDesc := fun _ _ =>
      { Address := [], City := "", State := "", Postcode := "", Country := "", Phone := "",
        Fax := "", Email := "", URL := "" },
    PositionByName := fun _ _ => { OrgName := "" } }

/-- A member with a membership and a tag and no speciality. -/
def exMember : Member :=
  { ID := 7, Title := "Dr", FirstName := "A", MiddleNames := [], LastName := "B",
    PostNominal := "", Gender := "F", DateOfBirth := "1970-01-01",
    Contact := { EmailPrimary := "a@example.com", EmailSecondary := "", Mobile := "" },
    DateOfEntry := "2000-01-01", Memberships := [{ Title := "Fellow", Status := "Active" }],
    Country := "Australia", Tags := ["tag"], JournalNumber := "", BpayNumber := "",
    Specialities := [] }

/-- The same member with no membership. -/
def exMemberNoMembership : Member := { exMember with Memberships := [] }

end Excel

namespace Fixr

/-! ## Lemmas on the per-record pass -/

theorem writes_append (a b : List Op) : writes (a ++ b) = writes a ++ writes b := by
  simp [writes]

theorem getLinkDoc_ok (env : Env) (k : String) (w w1 : World) (ld : Link)
    (h : getLinkDoc env k w = (ld, none, w1)) :
    w1 = { w with log := w.log ++ [Op.linksCol, Op.findOne k] } ∧
    (w.links.find? (fun d => decide (d.ShortUrl = k)) = some ld ∨
      (w.links.find? (fun d => decide (d.ShortUrl = k)) = none ∧ ld = keyOnly k)) := by
  unfold getLinkDoc LinksCol FindOne call at h
  simp only at h
  cases h1 : env.failAt w.log.length <;> simp [h1, Wrap] at h
  cases h2 : env.failAt (w.log.length + 1) <;> simp [h2, Wrap] at h
  cases h3 : w.links.find? (fun d => decide (d.ShortUrl = k)) <;> simp [h3] at h
  · obtain ⟨rfl, rfl⟩ := h
    simp
  · obtain ⟨rfl, rfl⟩ := h
    simp

theorem getLinkDoc_world (env : Env) (k : String) (w : World) :
    (getLinkDoc env k w).2.2.links = w.links ∧ (getLinkDoc env k w).2.2.primary = w.primary ∧
    (getLinkDoc env k w).2.2.resources = w.resources ∧ (getLinkDoc env k w).2.2.tick = w.tick ∧
    writes (getLinkDoc env k w).2.2.log = writes w.log := by
  unfold getLinkDoc LinksCol FindOne call
  simp only
  cases h1 : env.failAt w.log.length <;> simp [h1, Wrap, writes, isWrite]
  cases h2 : env.failAt (w.log.length + 1) <;> simp [h2, Wrap, isWrite]
  cases h3 : w.links.find? (fun d => decide (d.ShortUrl = k)) <;> simp [h3, isWrite]

theorem checks_of_not_trips (env : Env) (l : link) (ld : Link) (w : World)
    (h : ¬ trips l ld) : checks env l ld w = { ld := ld, doSync := false, w := w } := by
  simp only [trips, not_or, not_not] at h
  obtain ⟨h1, h2, h3, h4⟩ := h
  simp [checks, checkCreatedAt, checkUpdatedAt, checkTitle, checkLongUrl, h1, h2, h3, h4]

theorem checks_doSync (env : Env) (l : link) (ld : Link) (w : World) :
    (checks env l ld w).doSync = true ↔ trips l ld := by
  by_cases h : trips l ld
  · simp only [h, iff_true]
    simp only [trips] at h
    simp only [checks, checkCreatedAt, checkUpdatedAt, checkTitle, checkLongUrl]
    split_ifs <;> simp_all
  · simp [checks_of_not_trips env l ld w h, h]

theorem checks_world (env : Env) (l : link) (ld : Link) (w : World) :
    (checks env l ld w).w = { w with tick := (checks env l ld w).w.tick } := by
  simp only [checks, checkCreatedAt, checkUpdatedAt, checkTitle, checkLongUrl, Now]
  split_ifs <;> rfl

theorem checks_fields (env : Env) (l : link) (ld : Link) (w : World) :
    (checks env l ld w).ld.ShortUrl = ld.ShortUrl ∧ (checks env l ld w).ld.Title = l.title ∧
    (checks env l ld w).ld.LongUrl = l.longURL ∧ (checks env l ld w).ld.Active = ld.Active := by
  simp only [checks, checkCreatedAt, checkUpdatedAt, checkTitle, checkLongUrl, Now]
  split_ifs <;> simp_all

theorem checks_createdAt (env : Env) (l : link) (ld : Link) (w : World) :
    (checks env l ld w).ld.CreatedAt =
      if ld.CreatedAt = nilTime then env.clock w.tick else ld.CreatedAt := by
  simp only [checks, checkCreatedAt, checkUpdatedAt, checkTitle, checkLongUrl, Now]
  split_ifs <;> simp_all

theorem checks_updatedAt (env : Env) (l : link) (ld : Link) (w : World) :
    (checks env l ld w).ld.UpdatedAt =
      if ld.UpdatedAt = nilTime then
        env.clock (if ld.CreatedAt = nilTime then w.tick + 1 else w.tick)
      else ld.UpdatedAt := by
  simp only [checks, checkCreatedAt, checkUpdatedAt, checkTitle, checkLongUrl, Now]
  split_ifs <;> simp_all

theorem sync_eq (env : Env) (ld : Link) (k : String) (w : World) :
    sync env ld k w =
      if env.failAt w.log.length = true then
        (some (Err.wrapped "error connecting to collection" storeErr),
          { w with log := w.log ++ [Op.linksCol] })
      else if env.failAt (w.log.length + 1) = true then
        (some (Err.wrapped "upsert failed" storeErr),
          { w with log := w.log ++ [Op.linksCol, Op.upsert k ld] })
      else
        (none, { w with log := w.log ++ [Op.linksCol, Op.upsert k ld],
                        links := upsertDoc k ld w.links }) := by
  unfold sync LinksCol Upsert call
  cases h1 : env.failAt w.log.length <;> simp [h1, Wrap]
  cases h2 : env.failAt (w.log.length + 1) <;> simp [h2, Wrap]

theorem checkSync_eq (env : Env) (l : link) (w w1 : World) (ld : Link)
    (hfetch : getLinkDoc env l.shortPath w = (ld, none, w1)) :
    checkSync env l w =
      if trips l ld then
        (Wrap (sync env (checks env l ld w1).ld l.shortPath (checks env l ld w1).w).1 "sync failed",
         (sync env (checks env l ld w1).ld l.shortPath (checks env l ld w1).w).2)
      else (none, w1) := by
  unfold checkSync
  rw [hfetch]
  by_cases h : trips l ld
  · simp [h, (checks_doSync env l ld w1).2 h]
  · simp [h, checks_of_not_trips env l ld w1 h]

theorem checkSync_fetch_failed (env : Env) (l : link) (w w1 : World) (ld : Link) (e : Err)
    (hfetch : getLinkDoc env l.shortPath w = (ld, some e, w1)) :
    checkSync env l w = (some (Err.wrapped "mongo query failed" e), w1) := by
  unfold checkSync
  rw [hfetch]
  rfl

theorem checkSync_writes (env : Env) (l : link) (w w1 : World) (ld : Link)
    (hfetch : getLinkDoc env l.shortPath w = (ld, none, w1)) :
    writes (checkSync env l w).2.log = writes w.log ++
      (if trips l ld ∧ env.failAt w1.log.length = false then
        [Op.upsert l.shortPath (checks env l ld w1).ld] else []) := by
  have hw := getLinkDoc_world env l.shortPath w
  rw [hfetch] at hw
  have hw1 : writes w1.log = writes w.log := hw.2.2.2.2
  have hlog : (checks env l ld w1).w.log = w1.log := by rw [checks_world]
  rw [checkSync_eq env l w w1 ld hfetch]
  by_cases ht : trips l ld
  · simp only [ht, if_true, true_and]
    rw [sync_eq, hlog]
    cases h1 : env.failAt w1.log.length
    · cases h2 : env.failAt (w1.log.length + 1) <;>
        simp [hlog, writes_append, hw1] <;> simp [writes, isWrite]
    · simp [hlog, writes_append, hw1]; simp [writes, isWrite]
  · simp [ht, hw1]

theorem find_upsertDoc (k : String) (ld : Link) (h : ld.ShortUrl = k) (ds : List Link) :
    (upsertDoc k ld ds).find? (fun d => decide (d.ShortUrl = k)) = some ld := by
  induction ds with
  | nil => simp [upsertDoc, h]
  | cons d ds ih =>
    by_cases hd : d.ShortUrl = k
    · simp [upsertDoc, hd, h]
    · simp [upsertDoc, hd, ih]

theorem upsertDoc_absent (k : String) (ld : Link) (ds : List Link)
    (h : ds.find? (fun d => decide (d.ShortUrl = k)) = none) :
    upsertDoc k ld ds = ds ++ [ld] := by
  induction ds with
  | nil => rfl
  | cons d ds ih =>
    by_cases hd : d.ShortUrl = k
    · simp [hd] at h
    · simp [List.find?, hd] at h
      simp [upsertDoc, hd]
      exact ih (by simpa using h)

theorem fetched_key (env : Env) (k : String) (w w1 : World) (ld : Link)
    (h : getLinkDoc env k w = (ld, none, w1)) : ld.ShortUrl = k := by
  rcases (getLinkDoc_ok env k w w1 ld h).2 with hf | ⟨_, rfl⟩
  · simpa using List.find?_some hf
  · rfl

theorem checkSync_of_synced (env : Env) (l : link) (w : World) (h : Synced l w) :
    writes (checkSync env l w).2.log = writes w.log ∧ (checkSync env l w).2.links = w.links := by
  obtain ⟨d, hd, hnt⟩ := h
  have hw := getLinkDoc_world env l.shortPath w
  rcases hg : getLinkDoc env l.shortPath w with ⟨ld, e, w1⟩
  rw [hg] at hw
  cases e with
  | some e =>
    rw [checkSync_fetch_failed env l w w1 ld e hg]
    exact ⟨hw.2.2.2.2, hw.1⟩
  | none =>
    have hld : ld = d := by
      rcases (getLinkDoc_ok env _ w w1 ld hg).2 with hf | ⟨hf, _⟩
      · rw [hd] at hf; exact (Option.some.inj hf).symm
      · rw [hd] at hf; cases hf
    subst hld
    rw [checkSync_eq env l w w1 ld hg]
    simp only [hnt, if_false]
    exact ⟨hw.2.2.2.2, hw.1⟩

theorem checks_not_trips (env : Env) (hclock : ∀ n, env.clock n ≠ nilTime) (l : link)
    (ld : Link) (w : World) : ¬ trips l (checks env l ld w).ld := by
  have hf := checks_fields env l ld w
  have hc := checks_createdAt env l ld w
  have hu := checks_updatedAt env l ld w
  simp only [trips, not_or, not_not]
  refine ⟨?_, ?_, hf.2.1, hf.2.2.1⟩
  · rw [hc]; split_ifs with h
    · exact hclock _
    · exact h
  · rw [hu]; split_ifs with h h2
    · exact hclock _
    · exact hclock _
    · exact h

theorem synced_after_checkSync (env : Env) (hclock : ∀ n, env.clock n ≠ nilTime) (l : link)
    (w w1 : World) (h1 : checkSync env l w = (none, w1)) : Synced l w1 := by
  rcases hg : getLinkDoc env l.shortPath w with ⟨ld, e, w'⟩
  cases e with
  | some e => rw [checkSync_fetch_failed env l w w' ld e hg] at h1; simp at h1
  | none =>
    have hw := getLinkDoc_world env l.shortPath w
    rw [hg] at hw
    rw [checkSync_eq env l w w' ld hg] at h1
    by_cases ht : trips l ld
    · simp only [ht, if_true] at h1
      rw [sync_eq] at h1
      have hlinks : (checks env l ld w').w.links = w'.links := by rw [checks_world]
      split_ifs at h1 with a b
      · simp [Wrap] at h1
      · simp [Wrap] at h1
      · simp only [Wrap, Prod.mk.injEq, true_and] at h1
        subst h1
        refine ⟨(checks env l ld w').ld, ?_, checks_not_trips env hclock l ld w'⟩
        apply find_upsertDoc
        rw [(checks_fields env l ld w').1]
        exact fetched_key env _ w w' ld hg
    · simp only [ht, if_false, Prod.mk.injEq, true_and] at h1
      subst h1
      rcases (getLinkDoc_ok env _ w w' ld hg).2 with hf | ⟨_, rfl⟩
      · exact ⟨ld, by rw [hw.1]; exact hf, ht⟩
      · exact absurd (Or.inl rfl) ht

theorem getLinkDoc_eq (env : Env) (k : String) (w : World)
    (h0 : env.failAt w.log.length = false) (h1 : env.failAt (w.log.length + 1) = false) :
    getLinkDoc env k w =
      ((w.links.find? (fun d => decide (d.ShortUrl = k))).getD (keyOnly k), none,
        { w with log := w.log ++ [Op.linksCol, Op.findOne k] }) := by
  unfold getLinkDoc LinksCol FindOne call
  simp only [h0, List.length_append, List.length_singleton, h1]
  cases h3 : w.links.find? (fun d => decide (d.ShortUrl = k)) <;> simp

theorem checks_dated (env : Env) (l : link) (ld : Link) (w : World)
    (hc : ld.CreatedAt ≠ nilTime) (hu : ld.UpdatedAt ≠ nilTime) :
    checks env l ld w =
      { ld := { ld with Title := l.title, LongUrl := l.longURL },
        doSync := decide (ld.Title ≠ l.title ∨ ld.LongUrl ≠ l.longURL), w := w } := by
  cases ld
  simp only [checks, checkCreatedAt, checkUpdatedAt, checkTitle, checkLongUrl] at *
  split_ifs <;> simp_all

/-- C1: `checkSync` decides by field comparison only.  For the fetched document
`ld`: when `CreatedAt` or `UpdatedAt` is the zero time, or `Title` or `LongUrl`
differs from the link, `checkSync` is one call of `sync` (one upsert, issued as
soon as the collection is obtained); when none of the four holds it returns nil
and no store write is issued. -/
theorem checkSync_decides_by_field_comparison (env : Env) (l : link) (w w1 : World) (ld : Link)
    (hfetch : getLinkDoc env l.shortPath w = (ld, none, w1)) :
    ((ld.CreatedAt = nilTime ∨ ld.UpdatedAt = nilTime ∨ ld.Title ≠ l.title ∨
        ld.LongUrl ≠ l.longURL) →
      checkSync env l w =
        (Wrap (sync env (checks env l ld w1).ld l.shortPath (checks env l ld w1).w).1
            "sync failed",
          (sync env (checks env l ld w1).ld l.shortPath (checks env l ld w1).w).2) ∧
      writes (checkSync env l w).2.log = writes w.log ++
        (if env.failAt w1.log.length = true then []
         else [Op.upsert l.shortPath (checks env l ld w1).ld])) ∧
    (¬ (ld.CreatedAt = nilTime ∨ ld.UpdatedAt = nilTime ∨ ld.Title ≠ l.title ∨
        ld.LongUrl ≠ l.longURL) →
      checkSync env l w = (none, w1) ∧ writes (checkSync env l w).2.log = writes w.log) := by
  have heq := checkSync_eq env l w w1 ld hfetch
  have hwr := checkSync_writes env l w w1 ld hfetch
  constructor
  · intro ht
    have ht' : trips l ld := ht
    refine ⟨by rw [heq, if_pos ht'], ?_⟩
    rw [hwr]
    cases hf : env.failAt w1.log.length <;> simp [ht']
  · intro ht
    have ht' : ¬ trips l ld := ht
    refine ⟨by rw [heq, if_neg ht'], ?_⟩
    rw [hwr]
    simp [ht']

theorem checkSync_decides_by_field_comparison_witness :
    getLinkDoc exEnv exLink.shortPath exWorld =
        (exStored, none, (getLinkDoc exEnv exLink.shortPath exWorld).2.2) ∧
      writes (checkSync exEnv exLink exWorld).2.log =
        [Op.upsert "r42" { exStored with Title := "Title" }] :=
  ⟨by decide,
   ((checkSync_decides_by_field_comparison exEnv exLink exWorld
      (getLinkDoc exEnv exLink.shortPath exWorld).2.2 exStored (by decide)).1
        (by decide)).2.trans (by decide)⟩

/-- C2: the per-record sync is idempotent.  With a clock that never returns the
zero time, after a `checkSync` of `l` that returned nil, a second `checkSync` of
the same `l` issues no store write (no upsert) and leaves the Links collection
as it is, whatever the collection held before the first call. -/
theorem checkSync_second_run_writes_nothing (env : Env)
    (hclock : ∀ n, env.clock n ≠ nilTime) (l : link) (w w1 : World)
    (h1 : checkSync env l w = (none, w1)) :
    writes (checkSync env l w1).2.log = writes w1.log ∧
      (checkSync env l w1).2.links = w1.links :=
  checkSync_of_synced env l w1 (synced_after_checkSync env hclock l w w1 h1)

theorem checkSync_second_run_writes_nothing_witness :
    (∀ n, exEnv.clock n ≠ nilTime) ∧
      checkSync exEnv exLink exWorld = (none, (checkSync exEnv exLink exWorld).2) ∧
      writes (checkSync exEnv exLink (checkSync exEnv exLink exWorld).2).2.log =
        writes (checkSync exEnv exLink exWorld).2.log ∧
      (checkSync exEnv exLink (checkSync exEnv exLink exWorld).2).2.links =
        (checkSync exEnv exLink exWorld).2.links :=
  ⟨fun n => by simp [exEnv, nilTime], by decide,
   checkSync_second_run_writes_nothing exEnv (fun n => by simp [exEnv, nilTime]) exLink exWorld
     (checkSync exEnv exLink exWorld).2 (by decide)⟩

/-- C3 (as stated, refuted): on the creation path the two timestamps are two
readings of the clock; with the clock of `exEnv` the document upserted for
`exLink` into the empty collection has `CreatedAt = 1000` and `UpdatedAt = 1001`. -/
theorem creation_timestamps_differ :
    emptyWorld.links.find? (fun d => decide (d.ShortUrl = exLink.shortPath)) = none ∧
      ∃ doc, writes (checkSync exEnv exLink emptyWorld).2.log = [Op.upsert exLink.shortPath doc] ∧
        doc.CreatedAt ≠ doc.UpdatedAt :=
  ⟨by decide,
   { ShortUrl := "r42", Title := "Title", LongUrl := "http://example.com/a",
     CreatedAt := 1000, UpdatedAt := 1001, Active := false },
   by decide, by decide⟩

/-- C3 (amended): creation path.  For a link whose short path has no document in
the Links collection, with the store reachable and a clock that never returns
the zero time, one `checkSync` returns nil and issues a single upsert keyed by
`l.shortPath`; its document is appended to the collection and has
`ShortUrl = l.shortPath`, `Title = l.title`, `LongUrl = l.longURL`, `CreatedAt`
the first and `UpdatedAt` the second of two successive clock readings, both
non-zero. -/
theorem checkSync_creates_document (env : Env) (hclock : ∀ n, env.clock n ≠ nilTime)
    (l : link) (w : World)
    (habsent : w.links.find? (fun d => decide (d.ShortUrl = l.shortPath)) = none)
    (hok : ∀ i, i < 4 → env.failAt (w.log.length + i) = false) :
    ∃ doc : Link,
      (checkSync env l w).1 = none ∧
      writes (checkSync env l w).2.log = writes w.log ++ [Op.upsert l.shortPath doc] ∧
      (checkSync env l w).2.links = w.links ++ [doc] ∧
      doc.ShortUrl = l.shortPath ∧ doc.Title = l.title ∧ doc.LongUrl = l.longURL ∧
      doc.CreatedAt = env.clock w.tick ∧ doc.UpdatedAt = env.clock (w.tick + 1) ∧
      doc.CreatedAt ≠ nilTime ∧ doc.UpdatedAt ≠ nilTime := by
  have hg := getLinkDoc_eq env l.shortPath w (by simpa using hok 0 (by omega)) (hok 1 (by omega))
  rw [habsent] at hg
  simp only [Option.getD_none] at hg
  have ht : trips l (keyOnly l.shortPath) := Or.inl rfl
  have heq := checkSync_eq env l w _ _ hg
  rw [if_pos ht, sync_eq] at heq
  have hwr := checkSync_writes env l w _ _ hg
  have hcw := checks_world env l (keyOnly l.shortPath)
    { w with log := w.log ++ [Op.linksCol, Op.findOne l.shortPath] }
  have h2 : env.failAt (w.log.length + 2) = false := hok 2 (by omega)
  have h3 : env.failAt (w.log.length + 3) = false := hok 3 (by omega)
  have hlen : (checks env l (keyOnly l.shortPath)
      { w with log := w.log ++ [Op.linksCol, Op.findOne l.shortPath] }).w.log.length
        = w.log.length + 2 := by
    rw [hcw]; simp
  have hlinks : (checks env l (keyOnly l.shortPath)
      { w with log := w.log ++ [Op.linksCol, Op.findOne l.shortPath] }).w.links = w.links := by
    rw [hcw]
  rw [hlen] at heq
  simp only [h2, h3, Bool.false_eq_true, if_false, Wrap] at heq
  have hf := checks_fields env l (keyOnly l.shortPath)
    { w with log := w.log ++ [Op.linksCol, Op.findOne l.shortPath] }
  have hc : (checks env l (keyOnly l.shortPath)
      { w with log := w.log ++ [Op.linksCol, Op.findOne l.shortPath] }).ld.CreatedAt
        = env.clock w.tick := by
    rw [checks_createdAt]; simp [keyOnly]
  have hu : (checks env l (keyOnly l.shortPath)
      { w with log := w.log ++ [Op.linksCol, Op.findOne l.shortPath] }).ld.UpdatedAt
        = env.clock (w.tick + 1) := by
    rw [checks_updatedAt]; simp [keyOnly]
  refine ⟨_, by rw [heq], ?_, ?_, hf.1, hf.2.1, hf.2.2.1, hc, hu, ?_, ?_⟩
  · rw [hwr]
    simp [ht, h2]
  · rw [heq]
    simp only [hlinks]
    exact upsertDoc_absent _ _ _ habsent
  · rw [hc]; exact hclock _
  · rw [hu]; exact hclock _

theorem checkSync_creates_document_witness :
    ∃ doc : Link,
      (checkSync exEnv exLink emptyWorld).1 = none ∧
      writes (checkSync exEnv exLink emptyWorld).2.log =
        writes emptyWorld.log ++ [Op.upsert exLink.shortPath doc] ∧
      (checkSync exEnv exLink emptyWorld).2.links = emptyWorld.links ++ [doc] ∧
      doc.ShortUrl = exLink.shortPath ∧ doc.Title = exLink.title ∧
      doc.LongUrl = exLink.longURL ∧
      doc.CreatedAt = exEnv.clock emptyWorld.tick ∧
      doc.UpdatedAt = exEnv.clock (emptyWorld.tick + 1) ∧
      doc.CreatedAt ≠ nilTime ∧ doc.UpdatedAt ≠ nilTime :=
  checkSync_creates_document exEnv (fun n => by simp [exEnv, nilTime]) exLink emptyWorld
    (by decide) (fun _ _ => rfl)

/-- C4 (as stated, refuted): `exStored` has both timestamps set (5 and 5) and a
title that differs from `exLink`; the document `checkSync` upserts carries the
new title and still `UpdatedAt = 5`, which is no reading of the clock
(1000, 1001, ...). -/
theorem content_change_keeps_updatedAt :
    exStored.CreatedAt ≠ nilTime ∧ exStored.UpdatedAt ≠ nilTime ∧
      exStored.Title ≠ exLink.title ∧
      ∃ doc, writes (checkSync exEnv exLink exWorld).2.log = [Op.upsert exLink.shortPath doc] ∧
        doc.UpdatedAt = exStored.UpdatedAt ∧ ∀ n, doc.UpdatedAt < exEnv.clock n :=
  ⟨by decide, by decide, by decide,
   { exStored with Title := "Title" }, by decide, rfl,
   fun n => by show 5 < 1000 + n; omega⟩

/-- C4 (amended): a content change is synced with the stored timestamps.  For an
existing Links document whose `CreatedAt` and `UpdatedAt` are both set and whose
`Title` or `LongUrl` differs from `l`, with the store reachable, `checkSync`
upserts the stored document with `Title` and `LongUrl` taken from `l`;
`UpdatedAt` and `CreatedAt` are the stored ones and no clock reading is taken.
`UpdatedAt` changes in `checkSync` only when the fetched `UpdatedAt` is the zero
time. -/
theorem checkSync_content_change (env : Env) (l : link) (w : World) (ld : Link)
    (hstored : w.links.find? (fun d => decide (d.ShortUrl = l.shortPath)) = some ld)
    (hc : ld.CreatedAt ≠ nilTime) (hu : ld.UpdatedAt ≠ nilTime)
    (hdiff : ld.Title ≠ l.title ∨ ld.LongUrl ≠ l.longURL)
    (hok : ∀ i, i < 4 → env.failAt (w.log.length + i) = false) :
    writes (checkSync env l w).2.log = writes w.log ++
        [Op.upsert l.shortPath { ld with Title := l.title, LongUrl := l.longURL }] ∧
      (checkSync env l w).2.tick = w.tick ∧
      (∀ (fetched : Link) (w0 : World),
        (checks env l fetched w0).ld.UpdatedAt ≠ fetched.UpdatedAt →
          fetched.UpdatedAt = nilTime) := by
  have hg := getLinkDoc_eq env l.shortPath w (by simpa using hok 0 (by omega)) (hok 1 (by omega))
  rw [hstored] at hg
  simp only [Option.getD_some] at hg
  have ht : trips l ld := Or.inr (Or.inr hdiff)
  have h2 : env.failAt (w.log.length + 2) = false := hok 2 (by omega)
  have h3 : env.failAt (w.log.length + 3) = false := hok 3 (by omega)
  have hwr := checkSync_writes env l w _ _ hg
  have heq := checkSync_eq env l w _ _ hg
  rw [checks_dated env l ld _ hc hu] at hwr heq
  refine ⟨?_, ?_, ?_⟩
  · rw [hwr]; simp [ht, h2]
  · rw [heq, if_pos ht, sync_eq]
    simp [h2, h3]
  · intro fetched w0 hne
    by_contra hz
    exact hne (by rw [checks_updatedAt, if_neg hz])

theorem checkSync_content_change_witness :
    writes (checkSync exEnv exLink exWorld).2.log = writes exWorld.log ++
        [Op.upsert exLink.shortPath
          { exStored with Title := exLink.title, LongUrl := exLink.longURL }] ∧
      (checkSync exEnv exLink exWorld).2.tick = exWorld.tick ∧
      (∀ (fetched : Link) (w0 : World),
        (checks exEnv exLink fetched w0).ld.UpdatedAt ≠ fetched.UpdatedAt →
          fetched.UpdatedAt = nilTime) :=
  checkSync_content_change exEnv exLink exWorld exStored (by decide) (by decide) (by decide)
    (by decide) (fun _ _ => rfl)

/-- C5: `CreatedAt` is written once.  For an existing Links document whose
`CreatedAt` is non-zero, `checkSync` issues at most one write, an upsert keyed by
`l.shortPath`, and the document it carries has exactly the stored `CreatedAt`;
`CreatedAt` changes in `checkSync` only when the fetched `CreatedAt` is the zero
time, and then to the current clock reading. -/
theorem checkSync_keeps_createdAt (env : Env) (l : link) (w : World) (ld : Link)
    (hstored : w.links.find? (fun d => decide (d.ShortUrl = l.shortPath)) = some ld)
    (hc : ld.CreatedAt ≠ nilTime) :
    (∃ new, writes (checkSync env l w).2.log = writes w.log ++ new ∧ new.length ≤ 1 ∧
      ∀ op ∈ new, ∃ doc, op = Op.upsert l.shortPath doc ∧ doc.CreatedAt = ld.CreatedAt) ∧
    (∀ (fetched : Link) (w0 : World),
      (checks env l fetched w0).ld.CreatedAt ≠ fetched.CreatedAt →
        fetched.CreatedAt = nilTime ∧
          (checks env l fetched w0).ld.CreatedAt = env.clock w0.tick) := by
  constructor
  · have hw := getLinkDoc_world env l.shortPath w
    rcases hg : getLinkDoc env l.shortPath w with ⟨fd, e, w1⟩
    rw [hg] at hw
    cases e with
    | some e =>
      refine ⟨[], ?_, by simp, by simp⟩
      rw [checkSync_fetch_failed env l w w1 fd e hg]
      simpa using hw.2.2.2.2
    | none =>
      have hfd : fd = ld := by
        rcases (getLinkDoc_ok env _ w w1 fd hg).2 with hf | ⟨hf, _⟩
        · rw [hstored] at hf; exact (Option.some.inj hf).symm
        · rw [hstored] at hf; cases hf
      subst hfd
      refine ⟨_, checkSync_writes env l w w1 fd hg, ?_, ?_⟩
      · split_ifs <;> simp
      · intro op hop
        split_ifs at hop
        · simp only [List.mem_singleton] at hop
          refine ⟨_, hop, ?_⟩
          rw [checks_createdAt, if_neg hc]
        · simp at hop
  · intro fetched w0 hne
    by_cases hz : fetched.CreatedAt = nilTime
    · exact ⟨hz, by rw [checks_createdAt, if_pos hz]⟩
    · exact absurd (by rw [checks_createdAt, if_neg hz]) hne

theorem checkSync_keeps_createdAt_witness :
    (∃ new, writes (checkSync exEnv exLink exWorld).2.log = writes exWorld.log ++ new ∧
      new.length ≤ 1 ∧
      ∀ op ∈ new, ∃ doc, op = Op.upsert exLink.shortPath doc ∧
        doc.CreatedAt = exStored.CreatedAt) ∧
    (∀ (fetched : Link) (w0 : World),
      (checks exEnv exLink fetched w0).ld.CreatedAt ≠ fetched.CreatedAt →
        fetched.CreatedAt = nilTime ∧
          (checks exEnv exLink fetched w0).ld.CreatedAt = exEnv.clock w0.tick) :=
  checkSync_keeps_createdAt exEnv exLink exWorld exStored (by decide) (by decide)

/-! ## Lemmas on the short-link pass -/

theorem updateShortURL_ids (id : Int) (u : String) (t : Time) (rows : List Row) :
    (updateShortURL id u t rows).map (fun r => r.id) = rows.map (fun r => r.id) := by
  induction rows with
  | nil => rfl
  | cons r rs ih =>
    by_cases h : r.id = id
    · simp [updateShortURL, h]
    · simp [updateShortURL, h, ih]

theorem updateShortURL_others (id : Int) (u : String) (t : Time) (rows : List Row) :
    (updateShortURL id u t rows).filter (fun r => decide (r.id ≠ id)) =
      rows.filter (fun r => decide (r.id ≠ id)) := by
  induction rows with
  | nil => rfl
  | cons r rs ih =>
    by_cases h : r.id = id
    · simp [updateShortURL, h]
    · simp only [updateShortURL, h, if_false, List.filter_cons, ne_eq, not_false_eq_true,
        decide_True, if_true]
      rw [ih]

theorem updateShortURL_first (id : Int) (u : String) (t : Time) (rows : List Row) :
    (updateShortURL id u t rows).find? (fun r => decide (r.id = id)) =
      (rows.find? (fun r => decide (r.id = id))).map
        (fun r => { r with short_url := some u, updated_at := t }) := by
  induction rows with
  | nil => rfl
  | cons r rs ih =>
    by_cases h : r.id = id
    · simp [updateShortURL, h]
    · simp [updateShortURL, h, ih]

theorem setShortURL_eq (env : Env) (id : Int) (u : String) (w : World) :
    setShortURL env id u w =
      if env.failAt w.log.length = true then
        (some (Err.wrapped "sql updated failed" storeErr),
          { w with log := w.log ++ [Op.exec id u] })
      else
        (none, { w with log := w.log ++ [Op.exec id u], tick := w.tick + 1,
                        primary := updateShortURL id u (env.clock w.tick) w.primary }) := by
  unfold setShortURL call Now
  cases h : env.failAt w.log.length <;> simp [h, Wrap]

theorem getLinkDoc_log (env : Env) (k : String) (w : World) :
    ∃ rest, (getLinkDoc env k w).2.2.log = w.log ++ Op.linksCol :: rest := by
  unfold getLinkDoc LinksCol FindOne call
  cases h1 : env.failAt w.log.length
  · cases h2 : env.failAt (w.log.length + 1)
    · cases h3 : w.links.find? (fun d => decide (d.ShortUrl = k)) <;>
        exact ⟨[Op.findOne k], by simp [h1, h2, h3, Wrap]⟩
    · exact ⟨[Op.findOne k], by simp [h1, h2, Wrap]⟩
  · exact ⟨[], by simp [h1, Wrap]⟩

theorem checkSync_log (env : Env) (l : link) (w : World) :
    ∃ rest, (checkSync env l w).2.log = w.log ++ Op.linksCol :: rest := by
  obtain ⟨rest, hrest⟩ := getLinkDoc_log env l.shortPath w
  rcases hg : getLinkDoc env l.shortPath w with ⟨ld, e, w1⟩
  rw [hg] at hrest
  simp only at hrest
  cases e with
  | some e =>
    rw [checkSync_fetch_failed env l w w1 ld e hg]
    exact ⟨rest, hrest⟩
  | none =>
    rw [checkSync_eq env l w w1 ld hg]
    have hlog : (checks env l ld w1).w.log = w1.log := by rw [checks_world]
    split_ifs with ht
    · rw [sync_eq, hlog]
      split_ifs
      · exact ⟨rest ++ [Op.linksCol], by simp [hlog, hrest]⟩
      · exact ⟨rest ++ [Op.linksCol, Op.upsert l.shortPath (checks env l ld w1).ld],
          by simp [hlog, hrest]⟩
      · exact ⟨rest ++ [Op.linksCol, Op.upsert l.shortPath (checks env l ld w1).ld],
          by simp [hlog, hrest]⟩
    · exact ⟨rest, hrest⟩

theorem correctShortURL_log (env : Env) (l : link) (w : World) :
    (correctShortURL env l w).2.2.log =
      w.log ++ (if l.shortURL ≠ env.baseURL ++ "/" ++ (env.pfx ++ Itoa l.id) then
        [Op.exec l.id (env.baseURL ++ "/" ++ (env.pfx ++ Itoa l.id))] else []) := by
  simp only [correctShortURL, sprintfVV, sprintfVSlashV]
  split_ifs with h
  · rw [setShortURL_eq]
    split_ifs <;> rfl
  · simp

theorem checkShortLinksLoop_log (env : Env) (rows : List Row) :
    ∀ w : World, ∃ rest, (checkShortLinksLoop env rows w).2.log = w.log ++ rest := by
  induction rows with
  | nil => intro w; exact ⟨[], by simp [checkShortLinksLoop]⟩
  | cons r rs ih =>
    intro w
    unfold checkShortLinksLoop
    cases hs : Scan r with
    | none => exact ⟨[], by simp⟩
    | some l =>
      simp only
      have hc := correctShortURL_log env l w
      rcases hcs : correctShortURL env l w with ⟨l1, e, w1⟩
      rw [hcs] at hc
      simp only at hc
      cases e with
      | some e => exact ⟨_, hc⟩
      | none =>
        simp only
        obtain ⟨rest1, h1⟩ := checkSync_log env l1 w1
        rcases hk : checkSync env l1 w1 with ⟨e2, w2⟩
        rw [hk] at h1
        simp only at h1
        cases e2 with
        | some e => exact ⟨_, by simp only; rw [h1, hc, List.append_assoc]⟩
        | none =>
          obtain ⟨rest2, h2⟩ := ih w2
          exact ⟨_, by simp only; rw [h2, h1, hc, List.append_assoc, List.append_assoc]⟩

theorem checkShortLinks_eq (env : Env) (u : World) :
    checkShortLinks env u =
      if env.failAt u.log.length = true then
        (some storeErr, { u with log := u.log ++ [Op.queryCandidates env.backdays] })
      else
        checkShortLinksLoop env (u.primary.filter (candidate env (env.clock u.tick)))
          { u with log := u.log ++ [Op.queryCandidates env.backdays], tick := u.tick + 1 } := by
  unfold checkShortLinks call Now
  cases h : env.failAt u.log.length <;> simp [h]

theorem checkShortLinks_first_row (env : Env) (r : Row) (rs : List Row) (l : link) (u : World)
    (hscan : Scan r = some l) (hq : env.failAt u.log.length = false)
    (hrows : u.primary.filter (candidate env (env.clock u.tick)) = r :: rs) :
    (l.shortURL ≠ env.baseURL ++ "/" ++ (env.pfx ++ Itoa l.id) →
      ∃ rest, (checkShortLinks env u).2.log =
        u.log ++ Op.queryCandidates env.backdays ::
          Op.exec l.id (env.baseURL ++ "/" ++ (env.pfx ++ Itoa l.id)) :: rest) ∧
    (l.shortURL = env.baseURL ++ "/" ++ (env.pfx ++ Itoa l.id) →
      ∃ rest, (checkShortLinks env u).2.log =
        u.log ++ Op.queryCandidates env.backdays :: Op.linksCol :: rest) := by
  rw [checkShortLinks_eq, hq, hrows]
  simp only [Bool.false_eq_true, if_false]
  generalize hu1 : ({ u with
    log := u.log ++ [Op.queryCandidates env.backdays], tick := u.tick + 1 } : World) = u1
  have hlog1 : u1.log = u.log ++ [Op.queryCandidates env.backdays] := by rw [← hu1]
  have hc := correctShortURL_log env l u1
  unfold checkShortLinksLoop
  rw [hscan]
  simp only
  rcases hcs : correctShortURL env l u1 with ⟨l1, e, w1⟩
  rw [hcs] at hc
  simp only at hc
  have htail : ∃ rest, (match (l1, e, w1) with
      | (_, some e, w1) => (some e, w1)
      | (l1, none, w1) =>
        match checkSync env l1 w1 with
        | (some e, w2) => (some e, w2)
        | (none, w2) => checkShortLinksLoop env rs w2).2.log = w1.log ++ rest ∧
        (l.shortURL = env.baseURL ++ "/" ++ (env.pfx ++ Itoa l.id) →
          ∃ rest2, rest = Op.linksCol :: rest2) := by
    cases e with
    | some e =>
      refine ⟨[], by simp, ?_⟩
      intro he
      have : correctShortURL env l u1 =
          ({ l with shortPath := env.pfx ++ Itoa l.id }, none, u1) := by
        simp only [correctShortURL, sprintfVV, sprintfVSlashV]
        rw [if_neg (not_not.2 he)]
      rw [this] at hcs
      cases hcs
    | none =>
      simp only
      obtain ⟨rest1, h1⟩ := checkSync_log env l1 w1
      rcases hk : checkSync env l1 w1 with ⟨e2, w2⟩
      rw [hk] at h1
      simp only at h1
      cases e2 with
      | some e => exact ⟨_, h1, fun _ => ⟨_, rfl⟩⟩
      | none =>
        obtain ⟨rest2, h2⟩ := checkShortLinksLoop_log env rs w2
        refine ⟨Op.linksCol :: (rest1 ++ rest2), ?_, fun _ => ⟨_, rfl⟩⟩
        simp only
        rw [h2, h1]
        simp
  obtain ⟨rest, hrest, hcur⟩ := htail
  constructor
  · intro hne
    rw [if_pos hne] at hc
    refine ⟨rest, hrest.trans ?_⟩
    rw [hc, hlog1]; simp
  · intro he
    rw [if_neg (not_not.2 he)] at hc
    obtain ⟨rest2, rfl⟩ := hcur he
    refine ⟨rest2, hrest.trans ?_⟩
    rw [hc, hlog1]; simp

/-- C6: the primary corrector.  For a scanned row (NULL `short_url` read as the
empty string) `setShortURL(id, expected)` is called exactly when the stored
short URL differs from `expected = baseURL + "/" + prefix + decimal(id)`: then
one write, `exec id expected`, is issued, which (when it succeeds) sets
`short_url` to `expected` and `updated_at` to the clock reading on the first row
with that id and leaves the rows of other ids alone; when the stored value is
the expected one the world is unchanged.  In both cases the link handed on to
`checkSync` has `shortURL = expected`.  `checkShortLinks` itself is the query
followed by the loop over the rows returned: for the first row returned the
call right after the query is `exec id expected` when its short URL is not the
expected one, and the fetch of `checkSync` (no primary-store write) when it is;
on `exPrimaryWorld` it corrects row 42 and creates its Links document, and a
second run writes nothing. -/
theorem correctShortURL_spec (env : Env) (r : Row) (rs : List Row) (l : link) (w : World)
    (hscan : Scan r = some l) :
    l.id = r.id ∧ l.shortURL = r.short_url.getD "" ∧
    (l.shortURL ≠ env.baseURL ++ "/" ++ (env.pfx ++ Itoa l.id) →
      correctShortURL env l w =
        ({ l with shortPath := env.pfx ++ Itoa l.id,
                  shortURL := env.baseURL ++ "/" ++ (env.pfx ++ Itoa l.id) },
          setShortURL env l.id (env.baseURL ++ "/" ++ (env.pfx ++ Itoa l.id)) w) ∧
      writes (correctShortURL env l w).2.2.log =
        writes w.log ++ [Op.exec l.id (env.baseURL ++ "/" ++ (env.pfx ++ Itoa l.id))] ∧
      (env.failAt w.log.length = false →
        (correctShortURL env l w).2.1 = none ∧
        (correctShortURL env l w).2.2.primary =
          updateShortURL l.id (env.baseURL ++ "/" ++ (env.pfx ++ Itoa l.id))
            (env.clock w.tick) w.primary)) ∧
    (l.shortURL = env.baseURL ++ "/" ++ (env.pfx ++ Itoa l.id) →
      correctShortURL env l w = ({ l with shortPath := env.pfx ++ Itoa l.id }, none, w)) ∧
    (correctShortURL env l w).1.shortURL = env.baseURL ++ "/" ++ (env.pfx ++ Itoa l.id) ∧
    ((correctShortURL env l w).2.1 = none →
      checkShortLinksLoop env (r :: rs) w =
        match checkSync env (correctShortURL env l w).1 (correctShortURL env l w).2.2 with
        | (some e, w2) => (some e, w2)
        | (none, w2) => checkShortLinksLoop env rs w2) ∧
    (∀ (id : Int) (u : String) (t : Time) (rows : List Row),
      (updateShortURL id u t rows).find? (fun x => decide (x.id = id)) =
          (rows.find? (fun x => decide (x.id = id))).map
            (fun x => { x with short_url := some u, updated_at := t }) ∧
        (updateShortURL id u t rows).filter (fun x => decide (x.id ≠ id)) =
          rows.filter (fun x => decide (x.id ≠ id)) ∧
        (updateShortURL id u t rows).map (fun x => x.id) = rows.map (fun x => x.id)) ∧
    (∀ u : World,
      checkShortLinks env u =
        if env.failAt u.log.length = true then
          (some storeErr, { u with log := u.log ++ [Op.queryCandidates env.backdays] })
        else
          checkShortLinksLoop env (u.primary.filter (candidate env (env.clock u.tick)))
            { u with log := u.log ++ [Op.queryCandidates env.backdays], tick := u.tick + 1 }) ∧
    (∀ u : World, env.failAt u.log.length = false →
      u.primary.filter (candidate env (env.clock u.tick)) = r :: rs →
      (l.shortURL ≠ env.baseURL ++ "/" ++ (env.pfx ++ Itoa l.id) →
        ∃ rest, (checkShortLinks env u).2.log =
          u.log ++ Op.queryCandidates env.backdays ::
            Op.exec l.id (env.baseURL ++ "/" ++ (env.pfx ++ Itoa l.id)) :: rest) ∧
      (l.shortURL = env.baseURL ++ "/" ++ (env.pfx ++ Itoa l.id) →
        ∃ rest, (checkShortLinks env u).2.log =
          u.log ++ Op.queryCandidates env.backdays :: Op.linksCol :: rest)) ∧
    (checkShortLinks exEnv exPrimaryWorld).1 = none ∧
    (checkShortLinks exEnv exPrimaryWorld).2.primary =
      [{ exRow with short_url := some "https://s.example.com/r42", updated_at := 1001 }] ∧
    writes (checkShortLinks exEnv exPrimaryWorld).2.log =
      [Op.exec 42 "https://s.example.com/r42",
       Op.upsert "r42"
         { ShortUrl := "r42", Title := "Title", LongUrl := "http://example.com/a",
           CreatedAt := 1002, UpdatedAt := 1003, Active := false }] ∧
    writes (checkShortLinks exEnv (checkShortLinks exEnv exPrimaryWorld).2).2.log =
      writes (checkShortLinks exEnv exPrimaryWorld).2.log := by
  have hl : l.id = r.id ∧ l.shortURL = r.short_url.getD "" := by
    unfold Scan at hscan
    split at hscan
    · cases hscan; exact ⟨rfl, rfl⟩
    · cases hscan
  refine ⟨hl.1, hl.2, ?_, ?_, ?_, ?_, ?_, checkShortLinks_eq env,
    fun u hq hrows => checkShortLinks_first_row env r rs l u hscan hq hrows,
    by decide, by decide, by decide, by decide⟩
  · intro hne
    have hc : correctShortURL env l w =
        ({ l with shortPath := env.pfx ++ Itoa l.id,
                  shortURL := env.baseURL ++ "/" ++ (env.pfx ++ Itoa l.id) },
          setShortURL env l.id (env.baseURL ++ "/" ++ (env.pfx ++ Itoa l.id)) w) := by
      simp only [correctShortURL, sprintfVV, sprintfVSlashV]
      rw [if_pos hne]
    refine ⟨hc, ?_, ?_⟩
    · rw [hc, setShortURL_eq]
      cases hf : env.failAt w.log.length <;> simp [writes_append] <;> simp [writes, isWrite]
    · intro hf
      rw [hc, setShortURL_eq]
      simp [hf]
  · intro he
    simp only [correctShortURL, sprintfVV, sprintfVSlashV]
    rw [if_neg (not_not.2 he)]
  · simp only [correctShortURL, sprintfVV, sprintfVSlashV]
    split_ifs with h
    · rfl
    · exact not_not.1 h
  · intro hnone
    rcases hcs : correctShortURL env l w with ⟨l1, e, w1⟩
    rw [hcs] at hnone
    simp only at hnone
    subst hnone
    simp only [checkShortLinksLoop, hscan, hcs]
  · intro id u t rows
    exact ⟨updateShortURL_first id u t rows, updateShortURL_others id u t rows,
      updateShortURL_ids id u t rows⟩

theorem correctShortURL_spec_witness :
    Scan exRow = some exScanned ∧
      (correctShortURL exEnv exScanned exPrimaryWorld).1.shortURL = "https://s.example.com/r42" ∧
      (correctShortURL exEnv exScanned exPrimaryWorld).2.2.primary =
        [{ exRow with short_url := some "https://s.example.com/r42", updated_at := 1000 }] ∧
      (∃ rest, (checkShortLinks exEnv exPrimaryWorld).2.log =
        exPrimaryWorld.log ++ Op.queryCandidates exEnv.backdays ::
          Op.exec exScanned.id
            (exEnv.baseURL ++ "/" ++ (exEnv.pfx ++ Itoa exScanned.id)) :: rest) ∧
      (checkShortLinks exEnv exPrimaryWorld).2.primary =
        [{ exRow with short_url := some "https://s.example.com/r42", updated_at := 1001 }] :=
  ⟨by decide,
   (correctShortURL_spec exEnv exRow [] exScanned exPrimaryWorld (by decide)).2.2.2.2.1.trans
     (by decide),
   (((correctShortURL_spec exEnv exRow [] exScanned exPrimaryWorld (by decide)).2.2.1
     (by decide)).2.2 rfl).2.trans (by decide),
   ((correctShortURL_spec exEnv exRow [] exScanned exPrimaryWorld (by decide)).2.2.2.2.2.2.2.2.1
     exPrimaryWorld rfl (by decide)).1 (by decide),
   (correctShortURL_spec exEnv exRow [] exScanned exPrimaryWorld
     (by decide)).2.2.2.2.2.2.2.2.2.2.1⟩

/-- C7: link derivation.  The short path worked out in the loop of
`checkShortLinks` is the configured short-link text followed by the decimal
rendering of the id, the same string `setLinksActiveField` builds as selector
key for that id, and the expected short URL is `baseURL + "/" + shortPath`; id 42
gives `r42` and `https://s.example.com/r42`. -/
theorem short_link_derivation (env : Env) (l : link) (w : World) :
    (correctShortURL env l w).1.shortPath = env.pfx ++ Itoa l.id ∧
    linkKeys env [l.id] = [(correctShortURL env l w).1.shortPath] ∧
    (correctShortURL env l w).1.shortURL =
      env.baseURL ++ "/" ++ (correctShortURL env l w).1.shortPath ∧
    Itoa 42 = "42" ∧ sprintfVV "r" 42 = "r42" ∧
    sprintfVSlashV "https://s.example.com" "r42" = "https://s.example.com/r42" ∧
    (correctShortURL exEnv exScanned exPrimaryWorld).1.shortPath = "r42" := by
  have hp : (correctShortURL env l w).1.shortPath = env.pfx ++ Itoa l.id := by
    simp only [correctShortURL, sprintfVV, sprintfVSlashV]
    split_ifs <;> rfl
  have hu : (correctShortURL env l w).1.shortURL =
      env.baseURL ++ "/" ++ (env.pfx ++ Itoa l.id) := by
    simp only [correctShortURL, sprintfVV, sprintfVSlashV]
    split_ifs with h
    · rfl
    · exact not_not.1 h
  refine ⟨hp, ?_, ?_, by decide, by decide, by decide, by decide⟩
  · rw [hp]; rfl
  · rw [hu, hp]

/-! ## Lemmas on the decimal rendering -/

theorem digitsRev_value (fuel n : Nat) (h : n < fuel) : decValue (digitsRev fuel n) = n := by
  induction fuel generalizing n with
  | zero => omega
  | succ f ih =>
    unfold digitsRev
    split_ifs with hn
    · simp [decValue]
    · simp only [decValue]
      rw [ih (n / 10) (by omega)]
      omega

theorem digitsRev_lt (fuel n : Nat) : ∀ d ∈ digitsRev fuel n, d < 10 := by
  induction fuel generalizing n with
  | zero => simp [digitsRev]
  | succ f ih =>
    unfold digitsRev
    split_ifs with hn
    · simpa using hn
    · intro d hd
      rcases List.mem_cons.1 hd with rfl | hd
      · omega
      · exact ih _ d hd

theorem digitChar_inj : ∀ a < 10, ∀ b < 10, digitChar a = digitChar b → a = b := by
  decide

theorem digitChar_ne_minus (d : Nat) : digitChar d ≠ '-' := by
  unfold digitChar
  split <;> decide

theorem map_digitChar_inj (xs ys : List Nat) (hx : ∀ d ∈ xs, d < 10) (hy : ∀ d ∈ ys, d < 10)
    (h : xs.map digitChar = ys.map digitChar) : xs = ys := by
  induction xs generalizing ys with
  | nil =>
    cases ys with
    | nil => rfl
    | cons y ys => simp at h
  | cons x xs ih =>
    cases ys with
    | nil => simp at h
    | cons y ys =>
      simp only [List.map_cons, List.cons.injEq] at h
      have hxy := digitChar_inj x (hx x (by simp)) y (hy y (by simp)) h.1
      rw [hxy, ih ys (fun d hd => hx d (by simp [hd])) (fun d hd => hy d (by simp [hd])) h.2]

theorem natChars_inj (n m : Nat) (h : natChars n = natChars m) : n = m := by
  unfold natChars at h
  have h1 := map_digitChar_inj _ _ (digitsRev_lt _ _) (digitsRev_lt _ _) (List.reverse_inj.1 h)
  have h2 := digitsRev_value (n + 1) n (by omega)
  rw [h1, digitsRev_value (m + 1) m (by omega)] at h2
  exact h2.symm

theorem natChars_no_minus (n : Nat) : '-' ∉ natChars n := by
  unfold natChars
  intro h
  rw [List.mem_reverse, List.mem_map] at h
  obtain ⟨d, _, hd⟩ := h
  exact digitChar_ne_minus d hd

theorem Itoa_injective (a b : Int) (h : Itoa a = Itoa b) : a = b := by
  have hd : (Itoa a).data = (Itoa b).data := by rw [h]
  cases a with
  | ofNat n =>
    cases b with
    | ofNat m =>
      simp only [Itoa] at hd
      rw [natChars_inj n m hd]
    | negSucc m =>
      simp only [Itoa] at hd
      exact absurd (hd ▸ List.mem_cons_self _ _) (natChars_no_minus n)
  | negSucc n =>
    cases b with
    | ofNat m =>
      simp only [Itoa] at hd
      exact absurd (hd.symm ▸ List.mem_cons_self _ _) (natChars_no_minus m)
    | negSucc m =>
      simp only [Itoa, List.cons.injEq, true_and] at hd
      have := natChars_inj _ _ hd
      have hnm : n = m := by omega
      rw [hnm]

theorem key_injective (p : String) (a b : Int) (h : p ++ Itoa a = p ++ Itoa b) : a = b := by
  apply Itoa_injective
  have h1 : (p ++ Itoa a).data = (p ++ Itoa b).data := by rw [h]
  simp only [String.data_append] at h1
  exact String.ext (List.append_cancel_left h1)

theorem mem_linkKeys (env : Env) (ids : List Int) (id : Int) :
    env.pfx ++ Itoa id ∈ linkKeys env ids ↔ id ∈ ids := by
  unfold linkKeys
  rw [List.mem_map]
  constructor
  · rintro ⟨v, hv, hk⟩
    rw [← key_injective env.pfx v id hk]; exact hv
  · intro h
    exact ⟨id, h, rfl⟩

/-! ## Lemmas on the active-flag pass -/

theorem setResourcesActive_nil (b : Bool) (docs : List ResourceDoc) :
    setResourcesActive [] b docs = docs := by
  induction docs with
  | nil => rfl
  | cons d ds ih =>
    simp only [setResourcesActive, List.map_cons] at ih ⊢
    rw [ih]; simp [flagResource]

theorem setLinksActive_nil (b : Bool) (docs : List Link) : setLinksActive [] b docs = docs := by
  induction docs with
  | nil => rfl
  | cons d ds ih =>
    simp only [setLinksActive, List.map_cons] at ih ⊢
    rw [ih]; simp [flagLink]

theorem getResourceIDs_eq (env : Env) (b : Bool) (w : World) :
    getResourceIDs env b w =
      if env.failAt w.log.length = true then
        ([], some (Err.base "Error executing query - store error"),
          { w with log := w.log ++ [Op.queryIDs b] })
      else (idsWith env b w.primary, none, { w with log := w.log ++ [Op.queryIDs b] }) := by
  unfold getResourceIDs call
  cases h : env.failAt w.log.length <;> simp [h]

theorem setResourcesActiveField_cases (env : Env) (ids : List Int) (b : Bool) (w : World) :
    (setResourcesActiveField env ids b w).2.primary = w.primary ∧
    (setResourcesActiveField env ids b w).2.links = w.links ∧
    (((setResourcesActiveField env ids b w).1 = none ∧
        (setResourcesActiveField env ids b w).2.resources =
          setResourcesActive ids b w.resources) ∨
      ((setResourcesActiveField env ids b w).1 ≠ none ∧
        (setResourcesActiveField env ids b w).2.resources = w.resources)) := by
  unfold setResourcesActiveField
  split_ifs with h0
  · have : ids = [] := List.length_eq_zero.1 h0
    subst this
    simp [setResourcesActive_nil]
  · unfold ResourcesCol UpdateAllResources call
    cases h1 : env.failAt w.log.length <;> simp [h1, Wrap]
    cases h2 : env.failAt (w.log.length + 1) <;> simp [h2, Wrap]

theorem setLinksActiveField_cases (env : Env) (ids : List Int) (b : Bool) (w : World) :
    (setLinksActiveField env ids b w).2.primary = w.primary ∧
    (setLinksActiveField env ids b w).2.resources = w.resources ∧
    (((setLinksActiveField env ids b w).1 = none ∧
        (setLinksActiveField env ids b w).2.links =
          setLinksActive (linkKeys env ids) b w.links) ∨
      ((setLinksActiveField env ids b w).1 ≠ none ∧
        (setLinksActiveField env ids b w).2.links = w.links)) := by
  unfold setLinksActiveField
  split_ifs with h0
  · have : ids = [] := List.length_eq_zero.1 h0
    subst this
    simp [linkKeys, setLinksActive_nil]
  · unfold LinksCol UpdateAllLinks call
    cases h1 : env.failAt w.log.length <;> simp [h1, Wrap]
    cases h2 : env.failAt (w.log.length + 1) <;> simp [h2, Wrap]

/-- Every outcome of `syncActiveFlag`: the primary table is not written; a run
that returns nil has applied both bulk updates to both collections, inactive
ids first; a run that returns an error has applied a leading part of them. -/
theorem syncActiveFlag_cases (env : Env) (w : World) :
    (syncActiveFlag env w).2.primary = w.primary ∧
    (((syncActiveFlag env w).1 = none ∧
        (syncActiveFlag env w).2.resources =
          setResourcesActive (idsWith env true w.primary) true
            (setResourcesActive (idsWith env false w.primary) false w.resources) ∧
        (syncActiveFlag env w).2.links =
          setLinksActive (linkKeys env (idsWith env true w.primary)) true
            (setLinksActive (linkKeys env (idsWith env false w.primary)) false w.links)) ∨
      ((syncActiveFlag env w).1 ≠ none ∧
        ((syncActiveFlag env w).2.resources = w.resources ∨
          (syncActiveFlag env w).2.resources =
            setResourcesActive (idsWith env false w.primary) false w.resources ∨
          (syncActiveFlag env w).2.resources =
            setResourcesActive (idsWith env true w.primary) true
              (setResourcesActive (idsWith env false w.primary) false w.resources)) ∧
        ((syncActiveFlag env w).2.links = w.links ∨
          (syncActiveFlag env w).2.links =
            setLinksActive (linkKeys env (idsWith env false w.primary)) false w.links))) := by
  unfold syncActiveFlag
  rw [getResourceIDs_eq]
  split_ifs with q1
  · simp
  · simp only
    generalize hw1 : ({ w with log := w.log ++ [Op.queryIDs false] } : World) = w1
    have p1 : w1.primary = w.primary := by rw [← hw1]
    have r1 : w1.resources = w.resources := by rw [← hw1]
    have l1 : w1.links = w.links := by rw [← hw1]
    have s2 := setResourcesActiveField_cases env (idsWith env false w.primary) false w1
    rcases h2 : setResourcesActiveField env (idsWith env false w.primary) false w1 with ⟨e2, w2⟩
    rw [h2] at s2
    simp only at s2
    obtain ⟨p2, l2, c2⟩ := s2
    cases e2 with
    | some e =>
      rcases c2 with ⟨c, _⟩ | ⟨_, c⟩
      · cases c
      · simp [p2, p1, l2, l1, c, r1]
    | none =>
      rcases c2 with ⟨_, r2⟩ | ⟨c, _⟩
      swap
      · exact absurd rfl c
      simp only
      have s3 := setLinksActiveField_cases env (idsWith env false w.primary) false w2
      rcases h3 : setLinksActiveField env (idsWith env false w.primary) false w2 with ⟨e3, w3⟩
      rw [h3] at s3
      simp only at s3
      obtain ⟨p3, r3, c3⟩ := s3
      cases e3 with
      | some e =>
        rcases c3 with ⟨c, _⟩ | ⟨_, c⟩
        · cases c
        · simp [p3, p2, p1, r3, r2, r1, c, l2, l1]
      | none =>
        rcases c3 with ⟨_, l3⟩ | ⟨c, _⟩
        swap
        · exact absurd rfl c
        simp only
        rw [getResourceIDs_eq]
        split_ifs with q4
        · simp [p3, p2, p1, r3, r2, r1, l3, l2, l1]
        · simp only
          generalize hw4 : ({ w3 with log := w3.log ++ [Op.queryIDs true] } : World) = w4
          have p4 : w4.primary = w.primary := by rw [← hw4]; simp [p3, p2, p1]
          have r4 : w4.resources =
              setResourcesActive (idsWith env false w.primary) false w.resources := by
            rw [← hw4]; simp [r3, r2, r1]
          have l4 : w4.links =
              setLinksActive (linkKeys env (idsWith env false w.primary)) false w.links := by
            rw [← hw4]; simp [l3, l2, l1]
          have p3' : w3.primary = w.primary := by rw [p3, p2, p1]
          rw [p3']
          have s5 := setResourcesActiveField_cases env (idsWith env true w.primary) true w4
          rcases h5 : setResourcesActiveField env (idsWith env true w.primary) true w4
            with ⟨e5, w5⟩
          rw [h5] at s5
          simp only at s5
          obtain ⟨p5, l5, c5⟩ := s5
          cases e5 with
          | some e =>
            rcases c5 with ⟨c, _⟩ | ⟨_, c⟩
            · cases c
            · simp [p5, p4, l5, l4, c, r4]
          | none =>
            rcases c5 with ⟨_, r5⟩ | ⟨c, _⟩
            swap
            · exact absurd rfl c
            simp only
            have s6 := setLinksActiveField_cases env (idsWith env true w.primary) true w5
            obtain ⟨p6, r6, c6⟩ := s6
            refine ⟨by rw [p6, p5, p4], ?_⟩
            rcases c6 with ⟨e6, l6⟩ | ⟨e6, l6⟩
            · left
              exact ⟨e6, by rw [r6, r5, r4], by rw [l6, l5, l4]⟩
            · right
              exact ⟨e6, Or.inr (Or.inr (by rw [r6, r5, r4])), Or.inr (by rw [l6, l5, l4])⟩

theorem flagResource_id (ids : List Int) (b : Bool) (d : ResourceDoc) :
    (flagResource ids b d).id = d.id := by
  unfold flagResource; split_ifs <;> rfl

theorem flagLink_key (rids : List String) (b : Bool) (d : Link) :
    (flagLink rids b d).ShortUrl = d.ShortUrl := by
  unfold flagLink; split_ifs <;> rfl

theorem flagLink_rest (rids : List String) (b : Bool) (d : Link) :
    { flagLink rids b d with Active := false } = { d with Active := false } := by
  unfold flagLink; split_ifs <;> rfl

theorem flagResource_pos (ids : List Int) (b : Bool) (d : ResourceDoc) (h : d.id ∈ ids) :
    (flagResource ids b d).active = b := by
  simp [flagResource, h]

theorem flagResource_neg (ids : List Int) (b : Bool) (d : ResourceDoc) (h : d.id ∉ ids) :
    flagResource ids b d = d := by
  simp [flagResource, h]

theorem flagLink_pos (rids : List String) (b : Bool) (d : Link) (h : d.ShortUrl ∈ rids) :
    (flagLink rids b d).Active = b := by
  simp [flagLink, h]

theorem flagLink_neg (rids : List String) (b : Bool) (d : Link) (h : d.ShortUrl ∉ rids) :
    flagLink rids b d = d := by
  simp [flagLink, h]

theorem flagResource_absorb (I A : List Int) (hdisj : ∀ id ∈ I, id ∉ A) (d : ResourceDoc) :
    flagResource I false (flagResource A true (flagResource I false d)) =
      flagResource A true (flagResource I false d) := by
  by_cases hI : d.id ∈ I
  · have hA : d.id ∉ A := hdisj _ hI
    simp [flagResource, hI, hA]
  · by_cases hA : d.id ∈ A <;> simp [flagResource, hI, hA]

theorem flagResource_idem (A : List Int) (b : Bool) (d : ResourceDoc) :
    flagResource A b (flagResource A b d) = flagResource A b d := by
  by_cases hA : d.id ∈ A <;> simp [flagResource, hA]

theorem flagLink_absorb (I A : List String) (hdisj : ∀ k ∈ I, k ∉ A) (d : Link) :
    flagLink I false (flagLink A true (flagLink I false d)) =
      flagLink A true (flagLink I false d) := by
  by_cases hI : d.ShortUrl ∈ I
  · have hA : d.ShortUrl ∉ A := hdisj _ hI
    simp [flagLink, hI, hA]
  · by_cases hA : d.ShortUrl ∈ A <;> simp [flagLink, hI, hA]

theorem flagLink_idem (A : List String) (b : Bool) (d : Link) :
    flagLink A b (flagLink A b d) = flagLink A b d := by
  by_cases hA : d.ShortUrl ∈ A <;> simp [flagLink, hA]

theorem linkKeys_disjoint (env : Env) (I A : List Int) (hdisj : ∀ id ∈ I, id ∉ A) :
    ∀ k ∈ linkKeys env I, k ∉ linkKeys env A := by
  intro k hk hk2
  unfold linkKeys at hk
  rw [List.mem_map] at hk
  obtain ⟨v, hv, rfl⟩ := hk
  exact hdisj v hv ((mem_linkKeys env A v).1 hk2)

/-- C8: active-flag bulk convergence.  After a `syncActiveFlag` that returned
nil, with the inactive and the active id lists of the primary table disjoint:
every Resources document with id in the active list has `active = true` and with
id in the inactive list `active = false`; every Links document keyed
`prefix + decimal(id)` has `Active = true` for id in the active list and
`Active = false` for id in the inactive list; the documents are the ones that
existed before (same keys, same other fields), whatever flags they held. -/
theorem syncActiveFlag_converges (env : Env) (w w1 : World)
    (hrun : syncActiveFlag env w = (none, w1))
    (hdisj : ∀ id ∈ idsWith env false w.primary, id ∉ idsWith env true w.primary) :
    (∀ d ∈ w1.resources,
      (d.id ∈ idsWith env true w.primary → d.active = true) ∧
      (d.id ∈ idsWith env false w.primary → d.active = false)) ∧
    (∀ d ∈ w1.links, ∀ id : Int, d.ShortUrl = env.pfx ++ Itoa id →
      (id ∈ idsWith env true w.primary → d.Active = true) ∧
      (id ∈ idsWith env false w.primary → d.Active = false)) ∧
    w1.resources.map (fun d => d.id) = w.resources.map (fun d => d.id) ∧
    w1.links.map (fun d => { d with Active := false }) =
      w.links.map (fun d => { d with Active := false }) := by
  have hc := syncActiveFlag_cases env w
  rw [hrun] at hc
  simp only at hc
  obtain ⟨_, hc⟩ := hc
  rcases hc with ⟨_, hR, hL⟩ | ⟨hne, _⟩
  swap
  · exact absurd rfl hne
  refine ⟨?_, ?_, ?_, ?_⟩
  · intro d hd
    rw [hR] at hd
    simp only [setResourcesActive, List.map_map, List.mem_map, Function.comp] at hd
    obtain ⟨d0, _, rfl⟩ := hd
    constructor
    · intro h
      rw [flagResource_id, flagResource_id] at h
      have h' : (flagResource (idsWith env false w.primary) false d0).id ∈
          idsWith env true w.primary := by rw [flagResource_id]; exact h
      exact flagResource_pos _ _ _ h'
    · intro h
      rw [flagResource_id, flagResource_id] at h
      have hA := hdisj _ h
      have h' : (flagResource (idsWith env false w.primary) false d0).id ∉
          idsWith env true w.primary := by rw [flagResource_id]; exact hA
      rw [flagResource_neg _ _ _ h']
      exact flagResource_pos _ _ _ h
  · intro d hd id hkey
    rw [hL] at hd
    simp only [setLinksActive, List.map_map, List.mem_map, Function.comp] at hd
    obtain ⟨d0, _, rfl⟩ := hd
    rw [flagLink_key, flagLink_key] at hkey
    constructor
    · intro h
      have h' : (flagLink (linkKeys env (idsWith env false w.primary)) false d0).ShortUrl ∈
          linkKeys env (idsWith env true w.primary) := by
        rw [flagLink_key, hkey]; exact (mem_linkKeys env _ id).2 h
      exact flagLink_pos _ _ _ h'
    · intro h
      have hA : id ∉ idsWith env true w.primary := hdisj _ h
      have h' : (flagLink (linkKeys env (idsWith env false w.primary)) false d0).ShortUrl ∉
          linkKeys env (idsWith env true w.primary) := by
        rw [flagLink_key, hkey]; exact fun hm => hA ((mem_linkKeys env _ id).1 hm)
      have hI : d0.ShortUrl ∈ linkKeys env (idsWith env false w.primary) := by
        rw [hkey]; exact (mem_linkKeys env _ id).2 h
      rw [flagLink_neg _ _ _ h']
      exact flagLink_pos _ _ _ hI
  · rw [hR]
    simp only [setResourcesActive, List.map_map]
    apply List.map_congr_left
    intro d _
    simp [Function.comp, flagResource_id]
  · rw [hL]
    simp only [setLinksActive, List.map_map]
    apply List.map_congr_left
    intro d _
    simp only [Function.comp]
    rw [flagLink_rest, flagLink_rest]

theorem syncActiveFlag_converges_witness :
    syncActiveFlag exEnv flagWorld = (none, (syncActiveFlag exEnv flagWorld).2) ∧
    idsWith exEnv true flagWorld.primary = [1, 2, 3] ∧
    idsWith exEnv false flagWorld.primary = [4, 5] ∧
    (syncActiveFlag exEnv flagWorld).2.resources =
      [⟨1, true⟩, ⟨2, true⟩, ⟨3, true⟩, ⟨4, false⟩, ⟨5, false⟩, ⟨6, true⟩] ∧
    (syncActiveFlag exEnv flagWorld).2.links.map (fun d => (d.ShortUrl, d.Active)) =
      [("r1", true), ("r2", true), ("r3", true), ("r4", false), ("r5", false), ("r6", true)] ∧
    (∀ d ∈ (syncActiveFlag exEnv flagWorld).2.resources,
      (d.id ∈ idsWith exEnv true flagWorld.primary → d.active = true) ∧
      (d.id ∈ idsWith exEnv false flagWorld.primary → d.active = false)) :=
  ⟨by decide, by decide, by decide, by decide, by decide,
   (syncActiveFlag_converges exEnv flagWorld (syncActiveFlag exEnv flagWorld).2
     (by decide) (by decide)).1⟩

theorem setResourcesActive_fixed (I A : List Int) (hdisj : ∀ id ∈ I, id ∉ A)
    (docs : List ResourceDoc) :
    setResourcesActive I false (setResourcesActive A true (setResourcesActive I false docs)) =
        setResourcesActive A true (setResourcesActive I false docs) ∧
    setResourcesActive A true (setResourcesActive A true (setResourcesActive I false docs)) =
        setResourcesActive A true (setResourcesActive I false docs) := by
  simp only [setResourcesActive, List.map_map]
  constructor
  · apply List.map_congr_left
    intro d _
    exact flagResource_absorb I A hdisj d
  · apply List.map_congr_left
    intro d _
    exact flagResource_idem A true _

theorem setLinksActive_fixed (I A : List String) (hdisj : ∀ k ∈ I, k ∉ A) (docs : List Link) :
    setLinksActive I false (setLinksActive A true (setLinksActive I false docs)) =
        setLinksActive A true (setLinksActive I false docs) ∧
    setLinksActive A true (setLinksActive A true (setLinksActive I false docs)) =
        setLinksActive A true (setLinksActive I false docs) := by
  simp only [setLinksActive, List.map_map]
  constructor
  · apply List.map_congr_left
    intro d _
    exact flagLink_absorb I A hdisj d
  · apply List.map_congr_left
    intro d _
    exact flagLink_idem A true _

theorem setResourcesActive_frame (ids : List Int) (b : Bool) (docs : List ResourceDoc) (i : Nat)
    (d : ResourceDoc) (h : docs[i]? = some d) (hd : d.id ∉ ids) :
    (setResourcesActive ids b docs)[i]? = some d := by
  simp only [setResourcesActive, List.getElem?_map, h, Option.map_some']
  rw [flagResource_neg _ _ _ hd]

theorem setLinksActive_frame (rids : List String) (b : Bool) (docs : List Link) (i : Nat)
    (d : Link) (h : docs[i]? = some d) (hd : d.ShortUrl ∉ rids) :
    (setLinksActive rids b docs)[i]? = some d := by
  simp only [setLinksActive, List.getElem?_map, h, Option.map_some']
  rw [flagLink_neg _ _ _ hd]

/-- C9: the active-flag pass is idempotent.  After a `syncActiveFlag` that
returned nil on a disjoint id partition, a second `syncActiveFlag` (whatever it
returns) leaves the Resources collection, the Links collection and the primary
table exactly as the first run left them; and in any run from any world a
Resources document whose id is in neither list, and a Links document whose
`shortUrl` is in neither key list, stays as it is. -/
theorem syncActiveFlag_idempotent (env : Env) (w w1 : World)
    (hrun : syncActiveFlag env w = (none, w1))
    (hdisj : ∀ id ∈ idsWith env false w.primary, id ∉ idsWith env true w.primary) :
    (syncActiveFlag env w1).2.resources = w1.resources ∧
    (syncActiveFlag env w1).2.links = w1.links ∧
    (syncActiveFlag env w1).2.primary = w1.primary ∧
    (∀ (u : World) (i : Nat) (d : ResourceDoc), u.resources[i]? = some d →
      d.id ∉ idsWith env false u.primary → d.id ∉ idsWith env true u.primary →
        (syncActiveFlag env u).2.resources[i]? = some d) ∧
    (∀ (u : World) (i : Nat) (d : Link), u.links[i]? = some d →
      d.ShortUrl ∉ linkKeys env (idsWith env false u.primary) →
      d.ShortUrl ∉ linkKeys env (idsWith env true u.primary) →
        (syncActiveFlag env u).2.links[i]? = some d) := by
  have hc := syncActiveFlag_cases env w
  rw [hrun] at hc
  simp only at hc
  obtain ⟨hP, hc⟩ := hc
  rcases hc with ⟨_, hR, hL⟩ | ⟨hne, _⟩
  swap
  · exact absurd rfl hne
  have h2 := syncActiveFlag_cases env w1
  rw [hP] at h2
  obtain ⟨hP2, h2⟩ := h2
  have fR := setResourcesActive_fixed _ _ hdisj w.resources
  have fL := setLinksActive_fixed _ _ (linkKeys_disjoint env _ _ hdisj) w.links
  rw [← hR] at fR
  rw [← hL] at fL
  refine ⟨?_, ?_, by rw [hP2, hP], ?_, ?_⟩
  · rcases h2 with ⟨_, h, _⟩ | ⟨_, h | h | h, _⟩
    · rw [h, fR.1, fR.2]
    · exact h
    · rw [h, fR.1]
    · rw [h, fR.1, fR.2]
  · rcases h2 with ⟨_, _, h⟩ | ⟨_, _, h | h⟩
    · rw [h, fL.1, fL.2]
    · exact h
    · rw [h, fL.1]
  · intro u i d hd hI hA
    rcases (syncActiveFlag_cases env u).2 with ⟨_, h, _⟩ | ⟨_, h | h | h, _⟩
    · rw [h]
      exact setResourcesActive_frame _ _ _ i d (setResourcesActive_frame _ _ _ i d hd hI) hA
    · rw [h]; exact hd
    · rw [h]; exact setResourcesActive_frame _ _ _ i d hd hI
    · rw [h]
      exact setResourcesActive_frame _ _ _ i d (setResourcesActive_frame _ _ _ i d hd hI) hA
  · intro u i d hd hI hA
    rcases (syncActiveFlag_cases env u).2 with ⟨_, _, h⟩ | ⟨_, _, h | h⟩
    · rw [h]
      exact setLinksActive_frame _ _ _ i d (setLinksActive_frame _ _ _ i d hd hI) hA
    · rw [h]; exact hd
    · rw [h]; exact setLinksActive_frame _ _ _ i d hd hI

theorem syncActiveFlag_idempotent_witness :
    syncActiveFlag exEnv flagWorld = (none, (syncActiveFlag exEnv flagWorld).2) ∧
    (syncActiveFlag exEnv (syncActiveFlag exEnv flagWorld).2).2.resources =
      (syncActiveFlag exEnv flagWorld).2.resources ∧
    (syncActiveFlag exEnv (syncActiveFlag exEnv flagWorld).2).2.links =
      (syncActiveFlag exEnv flagWorld).2.links ∧
    (syncActiveFlag exEnv flagWorld).2.resources[5]? = flagWorld.resources[5]? ∧
    (syncActiveFlag exEnv flagWorld).2.links[5]? = flagWorld.links[5]? :=
  ⟨by decide,
   (syncActiveFlag_idempotent exEnv flagWorld (syncActiveFlag exEnv flagWorld).2
     (by decide) (by decide)).1,
   (syncActiveFlag_idempotent exEnv flagWorld (syncActiveFlag exEnv flagWorld).2
     (by decide) (by decide)).2.1,
   by decide, by decide⟩

/-- C10: empty id-set no-op.  For either value of `active`,
`setResourcesActiveField` and `setLinksActiveField` called with an empty id list
return nil and hand back the world as it was: no collection is obtained, no
`UpdateAll` is issued (the log of store calls is the same) and both derived
collections are unchanged. -/
theorem empty_ids_noop (env : Env) (active : Bool) (w : World) :
    setResourcesActiveField env [] active w = (none, w) ∧
    setLinksActiveField env [] active w = (none, w) ∧
    (setResourcesActiveField env [] active w).2.log = w.log ∧
    (setLinksActiveField env [] active w).2.log = w.log ∧
    (setResourcesActiveField env [] active w).2.resources = w.resources ∧
    (setLinksActiveField env [] active w).2.links = w.links := by
  have h1 : setResourcesActiveField env [] active w = (none, w) := by
    simp [setResourcesActiveField]
  have h2 : setLinksActiveField env [] active w = (none, w) := by
    simp [setLinksActiveField]
  rw [h1, h2]
  exact ⟨rfl, rfl, rfl, rfl, rfl, rfl⟩

/-! ## Lemmas on the run -/

theorem isValidTask_iff (t : String) : isValidTask t = true ↔ t = "fixResources" := by
  simp [isValidTask, validTasks]

theorem verifyTasks_ok (tasks : List String) :
    verifyTasks tasks = none ↔ ∀ t ∈ tasks, t = "fixResources" := by
  induction tasks with
  | nil => simp [verifyTasks]
  | cons t ts ih =>
    by_cases h : t = "fixResources"
    · subst h
      have hv : isValidTask "fixResources" = true := (isValidTask_iff _).2 rfl
      simp [verifyTasks, hv, ih]
    · have hv : isValidTask t = false := by
        cases hb : isValidTask t
        · rfl
        · exact absurd ((isValidTask_iff t).1 hb) h
      simp [verifyTasks, hv, h]

/-- C11: `verifyTasks` validates against the closed set `{"fixResources"}`.  It
returns nil exactly when every element of the list is `"fixResources"` (so for
the empty list), and otherwise the error `Invalid task: '<t>'` of the first
element `t` that is not in `validTasks`. -/
theorem verifyTasks_spec (tasks : List String) :
    (verifyTasks tasks = none ↔ ∀ t ∈ tasks, t = "fixResources") ∧
    verifyTasks tasks =
      (tasks.find? (fun t => decide (t ∉ validTasks))).map
        (fun t => Err.base ("Invalid task: '" ++ t ++ "'")) ∧
    verifyTasks [] = none ∧
    verifyTasks ["fixResources", "fixPubmed", "other"] =
      some (Err.base "Invalid task: 'fixPubmed'") := by
  refine ⟨verifyTasks_ok tasks, ?_, rfl, by decide⟩
  · induction tasks with
    | nil => rfl
    | cons t ts ih =>
      by_cases h : t = "fixResources"
      · subst h
        have hv : isValidTask "fixResources" = true := (isValidTask_iff _).2 rfl
        simp [verifyTasks, hv, ih, validTasks]
      · have hv : isValidTask t = false := by
          cases hb : isValidTask t
          · rfl
          · exact absurd ((isValidTask_iff t).1 hb) h
        simp [verifyTasks, hv, validTasks, h, invalidTask]

/-- C12 (the code at the failing input): with `-b 0 -t fixResources` nothing
rejects the lookback value; the run connects, issues the candidate query with
`INTERVAL 0 DAY`, goes on to the active-flag pass and ends with status 0. -/
theorem main_accepts_zero_backdays :
    zeroDaysEnv.backdays ≤ 0 ∧
    (main zeroDaysEnv "fixResources" exPrimaryWorld).1 = 0 ∧
    (main zeroDaysEnv "fixResources" exPrimaryWorld).2.log =
      [Op.connect, Op.queryCandidates 0, Op.queryIDs false, Op.queryIDs true,
        Op.resourcesCol, Op.updateAllResources [42] true, Op.linksCol,
        Op.updateAllLinks ["r42"] true] := by
  decide

theorem splitComma_ne_nil (cs : List Char) : splitComma cs ≠ [] := by
  cases cs with
  | nil => simp [splitComma]
  | cons c cs =>
    unfold splitComma
    split_ifs
    · simp
    · split <;> simp

theorem splitComma_intercalate (cs : List Char) :
    List.intercalate [','] (splitComma cs) = cs := by
  induction cs with
  | nil => simp [splitComma, List.intercalate]
  | cons c cs ih =>
    unfold splitComma
    split_ifs with hc
    · rcases hs : splitComma cs with _ | ⟨piece, rest⟩
      · exact absurd hs (splitComma_ne_nil cs)
      · rw [hs] at ih
        simp only [List.intercalate, List.intersperse_cons_cons, List.flatten_cons,
          List.nil_append, List.singleton_append] at ih ⊢
        rw [ih, hc]
    · rcases hs : splitComma cs with _ | ⟨piece, rest⟩
      · exact absurd hs (splitComma_ne_nil cs)
      · rw [hs] at ih
        simp only
        cases rest with
        | nil =>
          simp only [List.intercalate, List.intersperse_singleton, List.flatten_cons, List.flatten_nil,
            List.append_nil] at ih ⊢
          rw [ih]
        | cons p2 rest2 =>
          simp only [List.intercalate, List.intersperse_cons_cons, List.flatten_cons,
            List.cons_append] at ih ⊢
          rw [ih]

theorem splitComma_no_comma (cs : List Char) : ∀ p ∈ splitComma cs, ',' ∉ p := by
  induction cs with
  | nil => simp [splitComma]
  | cons c cs ih =>
    unfold splitComma
    split_ifs with hc
    · intro p hp
      rcases List.mem_cons.1 hp with rfl | hp
      · simp
      · exact ih p hp
    · rcases hs : splitComma cs with _ | ⟨piece, rest⟩
      · exact absurd hs (splitComma_ne_nil cs)
      · rw [hs] at ih
        intro p hp
        simp only at hp
        rcases List.mem_cons.1 hp with rfl | hp
        · intro hmem
          rcases List.mem_cons.1 hmem with h | h
          · exact hc h.symm
          · exact ih piece (List.mem_cons_self _ _) h
        · exact ih p (List.mem_cons_of_mem _ hp)

theorem Split_spec (s : String) :
    List.intercalate [','] ((Split s).map (fun p => p.data)) = s.data ∧
      ∀ p ∈ Split s, ',' ∉ p.data := by
  constructor
  · have : (Split s).map (fun p => p.data) = splitComma s.data := by
      simp [Split, Function.comp_def]
    rw [this, splitComma_intercalate]
  · intro p hp
    simp only [Split, List.mem_map] at hp
    obtain ⟨q, hq, rfl⟩ := hp
    exact splitComma_no_comma s.data q hq

/-- C13: exit status and stage ordering of a run.  With an empty `-t` value `main`
ends with status 0 and the world untouched (no store is connected); when a name
of the list (spaces removed, split at commas) is not `"fixResources"` it ends
with status 1 and the world untouched (before `datastore.Connect`); otherwise it
connects and runs the tasks in order: each task is `checkShortLinks` and then
`syncActiveFlag`, the run ends with status 1 at the first stage that returns an
error (after a failed `checkShortLinks` nothing more is run), and with status 0
when the list runs out.  The list is the `-t` value without its spaces, cut at
its commas: joined with commas the names give that text back and no name holds
a comma; `fixResources , fixResources` runs the task twice, `fix Resources`
once, and `fixResources, fixPubmed`, `fixResources,,fixResources` and a single
space end with status 1 before any store call. -/
theorem main_exit_status (env : Env) (tasksFlag : String) (w : World) :
    (tasksFlag = "" → main env tasksFlag w = (0, w)) ∧
    (tasksFlag ≠ "" → (∃ name ∈ Split (removeSpaces tasksFlag), name ≠ "fixResources") →
      main env tasksFlag w = (1, w)) ∧
    (tasksFlag ≠ "" → (∀ name ∈ Split (removeSpaces tasksFlag), name = "fixResources") →
      main env tasksFlag w =
        if env.failAt w.log.length = true then (1, { w with log := w.log ++ [Op.connect] })
        else runTasks env (Split (removeSpaces tasksFlag))
          { w with log := w.log ++ [Op.connect] }) ∧
    (∀ (vs : List String) (u : World),
      runTasks env ("fixResources" :: vs) u =
        if (checkShortLinks env u).1 ≠ none then (1, (checkShortLinks env u).2)
        else if (syncActiveFlag env (checkShortLinks env u).2).1 ≠ none then
          (1, (syncActiveFlag env (checkShortLinks env u).2).2)
        else runTasks env vs (syncActiveFlag env (checkShortLinks env u).2).2) ∧
    (∀ u : World, runTasks env [] u = (0, u)) ∧
    (∀ (vs : List String) (u : World),
      (runTasks env vs u).1 = 0 ∨ (runTasks env vs u).1 = 1) ∧
    (∀ (vs : List String) (u : World), (runTasks env ("fixResources" :: vs) u).1 = 0 →
      (checkShortLinks env u).1 = none ∧
      (syncActiveFlag env (checkShortLinks env u).2).1 = none ∧
      (runTasks env vs (syncActiveFlag env (checkShortLinks env u).2).2).1 = 0) ∧
    (removeSpaces tasksFlag).data = tasksFlag.data.filter (fun c => decide (c ≠ ' ')) ∧
    (∀ s : String,
      List.intercalate [','] ((Split s).map (fun name => name.data)) = s.data ∧
      ∀ name ∈ Split s, ',' ∉ name.data) ∧
    Split (removeSpaces "fixResources , fixResources") = ["fixResources", "fixResources"] ∧
    (main exEnv "fixResources , fixResources" exPrimaryWorld).1 = 0 ∧
    (main exEnv "fixResources , fixResources" exPrimaryWorld).2.log.count Op.connect = 1 ∧
    (main exEnv "fixResources , fixResources" exPrimaryWorld).2.log.count
      (Op.queryCandidates 1) = 2 ∧
    (main exEnv "fixResources , fixResources" exPrimaryWorld).2.log.count
      (Op.queryIDs true) = 2 ∧
    (main exEnv "fix Resources" exPrimaryWorld).1 = 0 ∧
    (main exEnv "fix Resources" exPrimaryWorld).2.log.count (Op.queryCandidates 1) = 1 ∧
    main exEnv "fixResources, fixPubmed" exPrimaryWorld = (1, exPrimaryWorld) ∧
    main exEnv "fixResources,,fixResources" exPrimaryWorld = (1, exPrimaryWorld) ∧
    main exEnv " " exPrimaryWorld = (1, exPrimaryWorld) ∧
    main exEnv "" exPrimaryWorld = (0, exPrimaryWorld) := by
  have hstep : ∀ (vs : List String) (u : World),
      runTasks env ("fixResources" :: vs) u =
        if (checkShortLinks env u).1 ≠ none then (1, (checkShortLinks env u).2)
        else if (syncActiveFlag env (checkShortLinks env u).2).1 ≠ none then
          (1, (syncActiveFlag env (checkShortLinks env u).2).2)
        else runTasks env vs (syncActiveFlag env (checkShortLinks env u).2).2 := by
    intro vs u
    rw [runTasks, if_pos rfl]
    rcases h1 : checkShortLinks env u with ⟨e1, u1⟩
    cases e1 with
    | some e => simp
    | none =>
      simp only [ne_eq, not_true_eq_false, if_false]
      rcases h2 : syncActiveFlag env u1 with ⟨e2, u2⟩
      cases e2 with
      | some e => simp
      | none => simp
  have hcode : ∀ (vs : List String) (u : World),
      (runTasks env vs u).1 = 0 ∨ (runTasks env vs u).1 = 1 := by
    intro vs
    induction vs with
    | nil => intro u; left; rfl
    | cons v vs ih =>
      intro u
      by_cases hv : v = "fixResources"
      · subst hv
        rw [hstep]
        split_ifs
        · right; rfl
        · right; rfl
        · exact ih _
      · rw [runTasks, if_neg hv]
        exact ih _
  refine ⟨?_, ?_, ?_, hstep, fun u => rfl, hcode, ?_, rfl, Split_spec, by decide, by decide,
    by decide, by decide, by decide, by decide, by decide, by decide, by decide, by decide,
    by decide⟩
  · intro h
    simp [main, h]
  · intro h hbad
    have hv : verifyTasks (Split (removeSpaces tasksFlag)) ≠ none := by
      intro hn
      obtain ⟨name, hmem, hne⟩ := hbad
      exact hne (((verifyTasks_ok _).1 hn) name hmem)
    rw [main, if_neg h]
    cases hvt : verifyTasks (Split (removeSpaces tasksFlag)) with
    | none => exact absurd hvt hv
    | some e => rfl
  · intro h hall
    have hv : verifyTasks (Split (removeSpaces tasksFlag)) = none :=
      (verifyTasks_ok _).2 hall
    rw [main, if_neg h, hv]
    simp only [Connect, call]
    cases hf : env.failAt w.log.length <;> simp
  · intro vs u h0
    rw [hstep] at h0
    by_cases a : (checkShortLinks env u).1 = none
    · by_cases b : (syncActiveFlag env (checkShortLinks env u).2).1 = none
      · rw [if_neg (not_not.2 a), if_neg (not_not.2 b)] at h0
        exact ⟨a, b, h0⟩
      · rw [if_neg (not_not.2 a), if_pos b] at h0
        cases h0
    · rw [if_pos a] at h0
      cases h0

/-- C16: short-path keys are injective in the id.  For a fixed text in front,
different ids give different keys; so for disjoint id lists the two key lists
built in `setLinksActiveField` are disjoint, and a Links document whose key comes
from the inactive list is still inactive after the later bulk update that sets
the keys of the active list to `true`. -/
theorem short_path_keys_injective (env : Env) :
    (∀ (p : String) (id1 id2 : Int), id1 ≠ id2 → p ++ Itoa id1 ≠ p ++ Itoa id2) ∧
    (∀ I A : List Int, (∀ id ∈ I, id ∉ A) → ∀ k ∈ linkKeys env I, k ∉ linkKeys env A) ∧
    (∀ (I A : List Int) (docs : List Link) (d : Link), (∀ id ∈ I, id ∉ A) →
      d ∈ setLinksActive (linkKeys env A) true (setLinksActive (linkKeys env I) false docs) →
      d.ShortUrl ∈ linkKeys env I → d.Active = false) ∧
    linkKeys exEnv [4, 5] = ["r4", "r5"] ∧ linkKeys exEnv [1, 2, 3] = ["r1", "r2", "r3"] := by
  refine ⟨?_, ?_, ?_, by decide, by decide⟩
  · intro p id1 id2 hne heq
    exact hne (key_injective p id1 id2 heq)
  · intro I A hdisj
    exact linkKeys_disjoint env I A hdisj
  · intro I A docs d hdisj hd hkey
    simp only [setLinksActive, List.map_map, List.mem_map, Function.comp] at hd
    obtain ⟨d0, _, rfl⟩ := hd
    rw [flagLink_key, flagLink_key] at hkey
    have hA : (flagLink (linkKeys env I) false d0).ShortUrl ∉ linkKeys env A := by
      rw [flagLink_key]
      exact linkKeys_disjoint env I A hdisj _ hkey
    rw [flagLink_neg _ _ _ hA]
    exact flagLink_pos _ _ _ hkey

end Fixr

/-! ## Theorems on `GetMemberActivity` -/

namespace Data

/-- C14: `GetMemberActivity` verifies ownership.  It returns a nil error exactly
when the lookup returned no error and the fetched activity's `MemberID` equals
`memberID`, and then the populated activity; when the lookup fails or the owner
differs it returns the zero `MemberActivity` with a non-nil error (the error of
the lookup, or the owner-mismatch message), so no field of another member's
activity is returned. -/
theorem GetMemberActivity_verifies_owner
    (MemberActivityByID : Int → FetchedActivity × Option String) (memberID activityID : Int) :
    ((GetMemberActivity MemberActivityByID memberID activityID).2 = none ↔
      ((MemberActivityByID activityID).2 = none ∧
        (MemberActivityByID activityID).1.MemberID = memberID)) ∧
    ((GetMemberActivity MemberActivityByID memberID activityID).2 = none →
      (GetMemberActivity MemberActivityByID memberID activityID).1 =
        { ID := (MemberActivityByID activityID).1.ID,
          Date := (MemberActivityByID activityID).1.DateISO,
          Credit := (MemberActivityByID activityID).1.Credit,
          CategoryID := (MemberActivityByID activityID).1.Category.ID,
          Category := (MemberActivityByID activityID).1.Category.Name,
          TypeID := (MemberActivityByID activityID).1.Activity.ID,
          Type_ := (MemberActivityByID activityID).1.Activity.Name,
          Description := (MemberActivityByID activityID).1.Description }) ∧
    ((GetMemberActivity MemberActivityByID memberID activityID).2 ≠ none →
      (GetMemberActivity MemberActivityByID memberID activityID).1 = zeroActivity) ∧
    (∀ err, (MemberActivityByID activityID).2 = some err →
      GetMemberActivity MemberActivityByID memberID activityID = (zeroActivity, some err)) ∧
    ((MemberActivityByID activityID).2 = none →
      (MemberActivityByID activityID).1.MemberID ≠ memberID →
      GetMemberActivity MemberActivityByID memberID activityID =
        (zeroActivity, some ("MemberActivity with id " ++ Fixr.Itoa activityID ++
          " does not belong to member with id " ++ Fixr.Itoa memberID))) ∧
    GetMemberActivity exLookup 8 100 =
      (zeroActivity, some "MemberActivity with id 100 does not belong to member with id 8") ∧
    (GetMemberActivity exLookup 7 100).1.Description = "secret notes" := by
  refine ⟨?_, ?_, ?_, ?_, ?_, by decide, by decide⟩
  all_goals
    unfold GetMemberActivity
    rcases h : MemberActivityByID activityID with ⟨ma, e⟩
    cases e with
    | some e => simp
    | none =>
      by_cases hm : ma.MemberID = memberID
      · simp [hm, zeroActivity]
      · simp [hm]

end Data

namespace Excel

/-! ## Lemmas on the reports -/

theorem rowKeys_foldl (rowNum : String) (cols acc : List String) :
    cols.foldl (fun refs c => refs ++ [c ++ rowNum]) acc =
      acc ++ cols.map (fun c => c ++ rowNum) := by
  induction cols generalizing acc with
  | nil => simp
  | cons c cs ih => simp [ih]

theorem rowKeys_eq_map (cols : List String) (n : Int) :
    rowKeys cols n = cols.map (fun c => c ++ Fixr.Itoa n) := by
  simp [rowKeys, rowKeys_foldl]

theorem paymentRow_columns (Format : Fixr.Time → String) (p : Payment) (n : Int) :
    paymentRow Format p (rowKeys columns n) = some (paymentCells Format p n) := by
  rw [rowKeys_eq_map]
  simp only [columns, List.map_cons, List.map_nil, paymentRow, paymentCells]
  simp only [List.getElem?_cons_zero, List.getElem?_cons_succ, bind, Option.bind, pure]
  generalize Fixr.Itoa n = s
  rfl

theorem foldl_SetCellValue (row : RowMap) (file : File) :
    row.foldl (fun f entry => SetCellValue f entry.1 entry.2) file = file ++ row := by
  induction row generalizing file with
  | nil => simp
  | cons e es ih =>
    rw [List.foldl_cons, ih]
    simp [SetCellValue]

theorem paymentLoop_spec (Format : Fixr.Time → String) (ps : List Payment) :
    ∀ (rowNum : Int) (file : File), ∃ rest,
      paymentLoop Format ps rowNum file = some (file ++ rest) ∧
      ∀ (k : Nat) (p : Payment), ps[k]? = some p →
        ∃ before after, rest = before ++ paymentCells Format p (rowNum + 1 + k) ++ after := by
  induction ps with
  | nil =>
    intro rowNum file
    exact ⟨[], by simp [paymentLoop], by simp⟩
  | cons q qs ih =>
    intro rowNum file
    obtain ⟨rest, hrest, hk⟩ := ih (rowNum + 1) (file ++ paymentCells Format q (rowNum + 1))
    refine ⟨paymentCells Format q (rowNum + 1) ++ rest, ?_, ?_⟩
    · simp only [paymentLoop, paymentRow_columns, foldl_SetCellValue]
      rw [hrest, List.append_assoc]
    · intro k p hp
      cases k with
      | zero =>
        simp only [List.getElem?_cons_zero, Option.some.injEq] at hp
        subst hp
        exact ⟨[], rest, by simp⟩
      | succ j =>
        simp only [List.getElem?_cons_succ] at hp
        obtain ⟨before, after, hba⟩ := hk j p hp
        refine ⟨paymentCells Format q (rowNum + 1) ++ before, after, ?_⟩
        rw [hba]
        have : rowNum + 1 + 1 + (j : Int) = rowNum + 1 + ((j + 1 : Nat) : Int) := by
          push_cast; ring
        rw [this]
        simp [List.append_assoc]

/-- C15: `rowKeys` returns the cell references of one row.  The result has the
length and order of the column keys, its i-th element is the i-th column key
followed by the decimal rendering of the row number (`A`, `B`, `C` and 10 give
`A10`, `B10`, `C10`).  In `PaymentReport` the column list has 12 entries, so the
indices `keys[0]` to `keys[11]` are in range for every row number and the report
is produced for every list of payments; the payment at index `k` (the `k+1`-th
payment) is written, column by column, to row `k + 2`, below the title row 1. -/
theorem rowKeys_spec (columnKeys : List String) (n : Int) (Format : Fixr.Time → String)
    (payments : List Payment) :
    rowKeys columnKeys n = columnKeys.map (fun c => c ++ Fixr.Itoa n) ∧
    (rowKeys columnKeys n).length = columnKeys.length ∧
    (∀ i : Nat, (rowKeys columnKeys n)[i]? = (columnKeys[i]?).map (fun c => c ++ Fixr.Itoa n)) ∧
    rowKeys ["A", "B", "C"] 10 = ["A10", "B10", "C10"] ∧
    columns.length = 12 ∧
    (∀ i : Nat, i < 12 → ∃ key, (rowKeys columns n)[i]? = some key) ∧
    (∃ file, PaymentReport Format payments = some file ∧
      (∃ rest, file = titles.map (fun entry => (entry.1, Value.str entry.2)) ++ rest) ∧
      ∀ (k : Nat) (p : Payment), payments[k]? = some p →
        ∃ before after, file = before ++ paymentCells Format p ((k : Int) + 2) ++ after) := by
  have hmap := rowKeys_eq_map columnKeys n
  refine ⟨hmap, by rw [hmap, List.length_map], ?_, by decide, rfl, ?_, ?_⟩
  · intro i
    rw [hmap, List.getElem?_map]
  · intro i hi
    have hlen : i < (rowKeys columns n).length := by
      rw [rowKeys_eq_map, List.length_map]; exact hi
    exact ⟨(rowKeys columns n)[i], List.getElem?_eq_getElem hlen⟩
  · obtain ⟨rest, hrest, hk⟩ := paymentLoop_spec Format payments (0 + 1)
      (titles.foldl (fun f entry => SetCellValue f entry.1 (Value.str entry.2)) [])
    have htitles : titles.foldl (fun f entry => SetCellValue f entry.1 (Value.str entry.2)) [] =
        titles.map (fun entry => (entry.1, Value.str entry.2)) := by
      decide
    refine ⟨_, hrest, ⟨rest, by rw [htitles]⟩, ?_⟩
    intro k p hp
    obtain ⟨before, after, hba⟩ := hk k p hp
    refine ⟨titles.foldl (fun f entry => SetCellValue f entry.1 (Value.str entry.2)) [] ++ before,
      after, ?_⟩
    rw [hba]
    have : (0 : Int) + 1 + 1 + (k : Int) = (k : Int) + 2 := by ring
    rw [this]
    simp [List.append_assoc]

theorem stmts_memberRow (mm : MemberMethods) (m : Member) :
    stmts (memberRow mm m) =
      List.range 12 ++ (if 0 < m.Memberships.length then [12, 13] else []) ++ [14] ++
        (if 0 < m.Tags.length then [15] else []) ++
        (List.range 19).map (fun i => i + 16) ++
        (List.range (min 3 m.Specialities.length)).map (fun i => i + 35) := by
  obtain ⟨ID, Title, FirstName, MiddleNames, LastName, PostNominal, Gender, DateOfBirth,
    Contact, DateOfEntry, Memberships, Country, Tags, JournalNumber, BpayNumber,
    Specialities⟩ := m
  rcases Memberships with _ | ⟨a, _⟩ <;> rcases Tags with _ | ⟨t, _⟩ <;>
    rcases Specialities with _ | ⟨s0, _ | ⟨s1, _ | ⟨s2, rest⟩⟩⟩ <;>
    simp [memberRow, AddCell, stmts] <;> decide

theorem length_stmts (row : List Cell) : (stmts row).length = row.length := by
  simp [stmts]

theorem aligned_not_shifted (row : List Cell) (h : Aligned row) : ¬ Shifted row := by
  rintro ⟨i, k, hk, hlt⟩
  rw [h] at hk
  have hi : i < row.length := by
    by_contra hcon
    rw [List.getElem?_eq_none (by simpa using hcon)] at hk
    cases hk
  rw [List.getElem?_eq_getElem (by simpa using hi)] at hk
  simp at hk
  omega

theorem aligned_memberRow (mm : MemberMethods) (m : Member) :
    Aligned (memberRow mm m) ↔ (0 < m.Memberships.length ∧ 0 < m.Tags.length) := by
  unfold Aligned
  rw [← length_stmts, stmts_memberRow]
  generalize hj : min 3 m.Specialities.length = j
  have hj3 : j ≤ 3 := by omega
  by_cases hM : 0 < m.Memberships.length <;> by_cases hT : 0 < m.Tags.length <;>
    interval_cases j <;> simp only [hM, hT, if_true, if_false, and_self, and_false, false_and] <;>
    decide

theorem shifted_memberRow (mm : MemberMethods) (m : Member) :
    Shifted (memberRow mm m) ↔ (m.Memberships.length = 0 ∨ m.Tags.length = 0) := by
  constructor
  · intro hs
    by_contra hcon
    have hMT : 0 < m.Memberships.length ∧ 0 < m.Tags.length := by omega
    exact aligned_not_shifted _ ((aligned_memberRow mm m).2 hMT) hs
  · intro h
    unfold Shifted
    rw [stmts_memberRow]
    generalize hj : min 3 m.Specialities.length = j
    by_cases hM : 0 < m.Memberships.length
    · have hT : ¬ 0 < m.Tags.length := by omega
      refine ⟨15, 16, ?_, by decide⟩
      simp only [hM, hT, if_true, if_false]
      rfl
    · refine ⟨12, 14, ?_, by decide⟩
      simp only [hM, if_false]
      by_cases hT : 0 < m.Tags.length <;> simp only [hT, if_true, if_false] <;> rfl

theorem length_memberRow (mm : MemberMethods) (m : Member) :
    (memberRow mm m).length =
      32 + (if 0 < m.Memberships.length then 2 else 0) + (if 0 < m.Tags.length then 1 else 0) +
        min 3 m.Specialities.length := by
  rw [← length_stmts, stmts_memberRow]
  simp only [List.length_append, List.length_range, List.length_map, List.length_singleton]
  split_ifs <;> simp

theorem country_cell (mm : MemberMethods) (m : Member) :
    (memberRow mm m)[if 0 < m.Memberships.length then 14 else 12]? =
      some { stmt := 14, Value := m.Country } := by
  obtain ⟨ID, Title, FirstName, MiddleNames, LastName, PostNominal, Gender, DateOfBirth,
    Contact, DateOfEntry, Memberships, Country, Tags, JournalNumber, BpayNumber,
    Specialities⟩ := m
  rcases Memberships with _ | ⟨a, _⟩ <;> rcases Tags with _ | ⟨t, _⟩ <;>
    rcases Specialities with _ | ⟨s0, _ | ⟨s1, _ | ⟨s2, rest⟩⟩⟩ <;>
    simp [memberRow, AddCell]

/-- C17 (as stated, refuted): `exMember` has a membership and a tag and no
speciality; its row has 35 cells, three fewer than the header, and yet every cell
stands under the column title of its statement: no value sits under an earlier
title. -/
theorem short_row_not_shifted :
    headerRow.length = 38 ∧ (memberRow exMethods exMember).length = 35 ∧
      ¬ (0 < exMember.Memberships.length ∧ 0 < exMember.Tags.length ∧
          3 ≤ exMember.Specialities.length) ∧
      Aligned (memberRow exMethods exMember) ∧ ¬ Shifted (memberRow exMethods exMember) := by
  have ha : Aligned (memberRow exMethods exMember) := by
    unfold Aligned; decide
  exact ⟨by decide, by decide, by decide, ha, aligned_not_shifted _ ha⟩

/-- C17 (amended): `MemberReport` row alignment.  The header row has 38 cells and
the data row of a member has
`32 + 2*[Memberships non-empty] + [Tags non-empty] + min(3, len(Specialities))`
cells, so as many as the header exactly when the member has a membership, a tag
and three specialities.  Each written value stands under its own column title
exactly when the member has a membership and a tag; values sit under earlier
column titles exactly when the member has no membership or no tag (without
membership `Country` stands at index 12, under `Membership Title`); with fewer
than three specialities only the last speciality cells are missing. -/
theorem memberRow_alignment (mm : MemberMethods) (m : Member) (members : List Member) :
    headerRow = memberColumns ∧ headerRow.length = 38 ∧
    (memberRow mm m).length =
      32 + (if 0 < m.Memberships.length then 2 else 0) + (if 0 < m.Tags.length then 1 else 0) +
        min 3 m.Specialities.length ∧
    ((memberRow mm m).length = headerRow.length ↔
      (0 < m.Memberships.length ∧ 0 < m.Tags.length ∧ 3 ≤ m.Specialities.length)) ∧
    (Aligned (memberRow mm m) ↔ (0 < m.Memberships.length ∧ 0 < m.Tags.length)) ∧
    (Shifted (memberRow mm m) ↔ (m.Memberships.length = 0 ∨ m.Tags.length = 0)) ∧
    (m.Memberships.length = 0 →
      (memberRow mm m)[12]? = some { stmt := 14, Value := m.Country }) ∧
    memberColumns[12]? = some "Membership Title" ∧
    memberColumns[14]? = some "Membership Country" ∧
    (∃ sheet, MemberReport mm none members = Except.ok sheet ∧ sheet.header = headerRow ∧
      sheet.rows = members.map (memberRow mm)) := by
  have hlen := length_memberRow mm m
  have hh : headerRow.length = 38 := by decide
  refine ⟨by decide, hh, hlen, ?_, aligned_memberRow mm m, shifted_memberRow mm m, ?_,
    by decide, by decide, ?_⟩
  · rw [hlen, hh]
    split_ifs <;> omega
  · intro h0
    have hc := country_cell mm m
    rw [if_neg (by omega)] at hc
    exact hc
  · refine ⟨_, rfl, rfl, ?_⟩
    show members.foldl (fun rows m => rows ++ [memberRow mm m]) [] = members.map (memberRow mm)
    have hgen : ∀ (ms : List Member) (acc : List (List Cell)),
        ms.foldl (fun rows m => rows ++ [memberRow mm m]) acc = acc ++ ms.map (memberRow mm) := by
      intro ms
      induction ms with
      | nil => intro acc; simp
      | cons x xs ih => intro acc; rw [List.foldl_cons, ih]; simp
    simpa using hgen members []

end Excel

